import Mathlib

/-!
Verification of the server-authoritative room/combat simulation of a
3D multiplayer shooter (server sources: `AIBot`, `GameRoom`, `GameServer`).

The shallow embedding below translates the server's data model and
operations into Lean: JavaScript `Map`s become insertion-ordered lists
with replace-or-append `set` semantics, wall-clock timestamps become
integers (milliseconds), spatial numbers become real numbers, and the
`setTimeout` respawn timer becomes an explicit pending-respawn queue
drained by a separate operation.  Each operation returns the updated
state together with the list of messages it sent (`broadcast` versus a
direct `ws.send` to one player are distinguished).
-/

namespace Shooter

noncomputable section

/-- The two teams (`export type Team = 'red' | 'blue'`). -/
inductive Team where
  | red
  | blue
deriving DecidableEq

/-- A 3-component vector, for positions, rotations and directions
(the source stores these as `[number, number, number]`). -/
structure Vec3 where
  x : ℝ
  y : ℝ
  z : ℝ

/-- The pair of aggregate team score counters
(`private teamScores = { red: 0, blue: 0 }`). -/
structure TeamScores where
  red : ℕ
  blue : ℕ
deriving DecidableEq

/-- A room member (interface `GamePlayer` in `gameLogic`).  The `ws`
connection handle is represented by the player id, which is what the
room uses to address messages. -/
structure GamePlayer where
  id : String
  name : String
  position : Vec3
  rotation : Vec3
  health : ℚ
  color : String
  score : ℕ
  isAlive : Bool
  lastShotTime : ℤ
  team : Team

/-- An in-flight bullet (interface `Bullet` in `gameLogic`). -/
structure Bullet where
  id : String
  playerId : String
  position : Vec3
  direction : Vec3
  weapon : String
  startTime : ℤ
  lastUpdateTime : ℤ
  speed : ℝ
  damage : Option ℚ

/-- The payload of a shoot submission, as assembled by
`GameServer.handleBulletFired` and passed to `GameRoom.handleBullet`. -/
structure BulletData where
  id : String
  playerId : String
  position : Vec3
  direction : Vec3
  weapon : String

/-- The data of a joining player handed to `GameRoom.addPlayer`. -/
structure PlayerData where
  id : String
  name : String
  position : Vec3
  rotation : Vec3
  health : ℚ

/-- Wire messages emitted by the server (the `type` discriminators of
the JSON objects sent over the socket, with the fields the
specification talks about). -/
inductive Event where
  | teamAssigned (team : Team) (color : String)
  | teamScoresUpdate (red blue : ℕ)
  | teamVictory (winner : Team) (red blue : ℕ)
  | playerJoined (pid name : String) (position rotation : Vec3) (health : ℚ)
      (color : String) (team : Team)
  | playerLeft (pid : String)
  | playerUpdate (pid : String) (position rotation : Vec3) (health : ℚ)
  | bulletFired (id pid : String) (position direction : Vec3) (weapon : String)
      (speed : ℝ) (damage : ℚ)
  | playerHit (victimId : String) (damage : ℚ) (weapon : String) (bulletId : String)
  | playerEliminated (victimId victimName killerId killerName weapon : String)
  | playerRespawned (pid : String) (position : Vec3)
  | roomCreated (code pid : String)
  | roomJoined (pid : String)
  | errorMsg (msg : String)

/-- A message emission: either a room `broadcast` (optionally excluding
one player id) or a direct `ws.send` to a single player. -/
inductive Emit where
  | bcast (excl : Option String) (e : Event)
  | send (dst : String) (e : Event)

/-- `GameRoom.getWeaponDamage`. -/
def getWeaponDamage (weapon : String) : ℚ :=
  if weapon = "pistol" then 25
  else if weapon = "rifle" then 35
  else if weapon = "shotgun" then 60
  else 25

/-- `GameRoom.getWeaponSpeed`. -/
def getWeaponSpeed (weapon : String) : ℝ :=
  if weapon = "pistol" then 80
  else if weapon = "rifle" then 120
  else if weapon = "shotgun" then 60
  else 100

/-- `GameRoom.getSpawnPoints`: the fixed spawn-point list. -/
def getSpawnPoints : List Vec3 :=
  [⟨10, 0.9, 10⟩, ⟨-10, 0.9, 10⟩, ⟨10, 0.9, -10⟩, ⟨-10, 0.9, -10⟩,
   ⟨0, 0.9, 15⟩, ⟨0, 0.9, -15⟩, ⟨15, 0.9, 0⟩, ⟨-15, 0.9, 0⟩,
   ⟨25, 0.9, 5⟩, ⟨-25, 0.9, -5⟩]

/-- `GameRoom.getRandomSpawnPoint`: `spawnPoints[floor(random * length)]`;
the random draw is modelled by an external index reduced modulo the
list length. -/
def getRandomSpawnPoint (k : ℕ) : Vec3 :=
  getSpawnPoints.getD (k % getSpawnPoints.length) ⟨0, 0, 0⟩

/-- First entry of a player map (`Map.get`), looked up by id. -/
def findPlayer (players : List GamePlayer) (pid : String) : Option GamePlayer :=
  players.find? (fun p => p.id == pid)

/-- `Map.set` on the player map: replace the entry with the same key,
else append (JS `Map` keeps insertion order). -/
def setPlayer (players : List GamePlayer) (p : GamePlayer) : List GamePlayer :=
  match players with
  | [] => [p]
  | q :: rest => if q.id = p.id then p :: rest else q :: setPlayer rest p

/-- In-place mutation of the player-map entry with key `pid`
(JS object mutation through the map reference). -/
def updatePlayer (players : List GamePlayer) (pid : String)
    (f : GamePlayer → GamePlayer) : List GamePlayer :=
  players.map (fun p => if p.id = pid then f p else p)

/-- `Map.set` on the bullet map. -/
def setBullet (bullets : List Bullet) (b : Bullet) : List Bullet :=
  match bullets with
  | [] => [b]
  | q :: rest => if q.id = b.id then b :: rest else q :: setBullet rest b

/-- Euclidean length of a vector, written exactly as the source computes
it (`Math.sqrt(x*x + y*y + z*z)`). -/
def dirLen (v : Vec3) : ℝ :=
  Real.sqrt (v.x * v.x + v.y * v.y + v.z * v.z)

/-- Euclidean distance between two points, as in the hit check
(`Math.sqrt(dx*dx + dy*dy + dz*dz)`). -/
def dist3 (a b : Vec3) : ℝ :=
  Real.sqrt ((a.x - b.x) * (a.x - b.x) + (a.y - b.y) * (a.y - b.y) +
    (a.z - b.z) * (a.z - b.z))

/-- Componentwise division by the computed length, as in
`bulletData.direction[i] / dirLength`. -/
def normVec (v : Vec3) : Vec3 :=
  ⟨v.x / dirLen v, v.y / dirLen v, v.z / dirLen v⟩

/-- The room state (`class GameRoom`), together with the queue of
respawn timers scheduled by `setTimeout` that have not fired yet.
Each entry is the eliminated player's id, the absolute time at which
the 3000 ms timer comes due, and a flag recording whether the
`GamePlayer` object captured by the timer's closure has since been
replaced in the player map.  The flag encodes JavaScript object
identity: the callback mutates the captured object, all handlers other
than `addPlayer` mutate map entries in place, and only `addPlayer`
performs `Map.set` with a freshly constructed object — so the flag
starts `false` and is switched to `true` exactly when `addPlayer`
overwrites the entry with that id. -/
structure GameRoom where
  code : String
  players : List GamePlayer
  bullets : List Bullet
  teamScores : TeamScores
  scoreLimit : ℕ
  gameEnded : Bool
  pendingRespawns : List (String × ℤ × Bool)

/-- The `GameRoom` constructor: empty maps, scores 0/0, score limit 50,
game not ended. -/
def mkRoom (code : String) : GameRoom :=
  ⟨code, [], [], ⟨0, 0⟩, 50, false, []⟩

/-- `GameRoom.assignPlayerTeam`: even current population joins red,
odd joins blue. -/
def assignPlayerTeam (room : GameRoom) : Team :=
  if room.players.length % 2 = 0 then .red else .blue

/-- `GameRoom.getTeamColor`. -/
def getTeamColor : Team → String
  | .red => "#ff4444"
  | .blue => "#4444ff"

/-- `GameRoom.checkForVictory`, acting on the player map, the score
counters and the ended flag; returns the updated players, the updated
flag and the broadcasts it performed. -/
def checkForVictory (players : List GamePlayer) (scores : TeamScores)
    (limit : ℕ) (ended : Bool) : List GamePlayer × Bool × List Emit :=
  if ended then (players, ended, [])
  else if scores.red ≥ limit then
    (players.map (fun p => if p.team = Team.red then { p with score := p.score + 500 } else p),
     true, [.bcast none (.teamVictory .red scores.red scores.blue)])
  else if scores.blue ≥ limit then
    (players.map (fun p => if p.team = Team.blue then { p with score := p.score + 500 } else p),
     true, [.bcast none (.teamVictory .blue scores.red scores.blue)])
  else (players, false, [])

/-- Mark the pending respawn timers of an id as orphaned: `Map.set`
with a freshly constructed `GamePlayer` (which only `addPlayer` does)
replaces the object every outstanding timer for that id captured. -/
def markStale (l : List (String × ℤ × Bool)) (pid : String) : List (String × ℤ × Bool) :=
  l.map (fun e => if e.1 = pid then (e.1, e.2.1, true) else e)

/-- `GameRoom.addPlayer`. -/
def addPlayer (room : GameRoom) (pd : PlayerData) : GameRoom × List Emit :=
  let team := assignPlayerTeam room
  let teamColor := getTeamColor team
  let gp : GamePlayer :=
    ⟨pd.id, pd.name, pd.position, pd.rotation, pd.health, teamColor, 0, true, 0, team⟩
  let players' := setPlayer room.players gp
  let ownInfo : List Emit :=
    [.send pd.id (.teamAssigned team teamColor),
     .send pd.id (.teamScoresUpdate room.teamScores.red room.teamScores.blue)]
  let victoryReplay : List Emit :=
    if room.gameEnded = true ∧
        (room.teamScores.red ≥ room.scoreLimit ∨ room.teamScores.blue ≥ room.scoreLimit) then
      let w : Team := if room.teamScores.red ≥ room.scoreLimit then .red else .blue
      [.send pd.id (.teamVictory w room.teamScores.red room.teamScores.blue)]
    else []
  let joined : List Emit :=
    [.bcast (some pd.id)
      (.playerJoined pd.id pd.name pd.position pd.rotation pd.health teamColor team)]
  let roster : List Emit :=
    (players'.filter (fun q => ¬ (q.id = pd.id))).map (fun q =>
      .send pd.id (.playerJoined q.id q.name q.position q.rotation q.health q.color q.team))
  ({ room with players := players',
               pendingRespawns := markStale room.pendingRespawns pd.id },
   ownInfo ++ victoryReplay ++ joined ++ roster)

/-- `GameRoom.removePlayer`. -/
def removePlayer (room : GameRoom) (pid : String) : GameRoom × List Emit :=
  match findPlayer room.players pid with
  | none => (room, [])
  | some _ =>
    ({ room with players := room.players.filter (fun p => ¬ (p.id = pid)) },
     [.bcast none (.playerLeft pid)])

/-- `GameRoom.broadcastPlayerUpdate` (fed by the server's
`player_update` handler, which overwrites position, rotation and
health with the client-supplied values). -/
def broadcastPlayerUpdate (room : GameRoom) (pid : String) (pos rot : Vec3)
    (health : ℚ) : GameRoom × List Emit :=
  match findPlayer room.players pid with
  | none => (room, [])
  | some _ =>
    ({ room with players := updatePlayer room.players pid (fun p =>
        { p with position := pos, rotation := rot, health := health }) },
     [.bcast (some pid) (.playerUpdate pid pos rot health)])

/-- `GameRoom.handleBullet`: rate limit (100 ms floor, only when the
submitter is in the player map), zero-length direction guard
(threshold `1e-6`), normalization, storage with `speed: 100`, and the
`bullet_fired` broadcast carrying the weapon-specific speed and
damage. -/
def handleBullet (room : GameRoom) (now : ℤ) (bd : BulletData) : GameRoom × List Emit :=
  let rateChecked : Option (List GamePlayer) :=
    match findPlayer room.players bd.playerId with
    | some p =>
      if now - p.lastShotTime < 100 then none
      else some (updatePlayer room.players bd.playerId (fun q => { q with lastShotTime := now }))
    | none => some room.players
  match rateChecked with
  | none => (room, [])
  | some players1 =>
    if dirLen bd.direction ≤ 1e-6 then
      ({ room with players := players1 }, [])
    else
      let bullet : Bullet :=
        ⟨bd.id, bd.playerId, bd.position, normVec bd.direction, bd.weapon, now, now, 100, none⟩
      ({ room with players := players1, bullets := setBullet room.bullets bullet },
       [.bcast none (.bulletFired bullet.id bullet.playerId bullet.position bullet.direction
          bullet.weapon (getWeaponSpeed bullet.weapon) (getWeaponDamage bullet.weapon))])

/-- `bullet.damage || this.getWeaponDamage(bullet.weapon)` (JS `||`
falls through on `undefined` and on `0`). -/
def effectiveDamage (b : Bullet) : ℚ :=
  match b.damage with
  | some d => if d = 0 then getWeaponDamage b.weapon else d
  | none => getWeaponDamage b.weapon

/-- `this.players.get(bullet.playerId) || { team: 'red' }`: the shooter's
team, defaulting to red when the shooter is gone (the fallback the
source keeps for red-team bots). -/
def shooterTeamOf (players : List GamePlayer) (b : Bullet) : Team :=
  match findPlayer players b.playerId with
  | some s => s.team
  | none => .red

/-- The hit-scan condition for one candidate player: not the shooter,
alive, not on the (effective) shooter's team, within the 1.0 hit
radius. -/
def hitPred (players : List GamePlayer) (b : Bullet) (p : GamePlayer) : Prop :=
  ¬ (p.id = b.playerId) ∧ p.isAlive = true ∧
    ¬ (shooterTeamOf players b = p.team) ∧ dist3 b.position p.position < 1

open Classical in
/-- The first player in map iteration order that the bullet hits
(the inner `for` loop with its `continue`s and `break`). -/
def findHitTarget (players : List GamePlayer) (b : Bullet) : Option GamePlayer :=
  players.find? (fun p => decide (hitPred players b p))

/-- Per-tick displacement of one bullet
(`position += direction * speed * deltaTime`). -/
def advanceBullet (now : ℤ) (b : Bullet) : Bullet :=
  let deltaTime : ℝ := ((now - b.lastUpdateTime : ℤ) : ℝ) / 1000
  { b with
    position := ⟨b.position.x + b.direction.x * b.speed * deltaTime,
                 b.position.y + b.direction.y * b.speed * deltaTime,
                 b.position.z + b.direction.z * b.speed * deltaTime⟩,
    lastUpdateTime := now }

/-- The mutable state threaded through `updateBullets`' `forEach` over
the bullet map. -/
structure TickState where
  players : List GamePlayer
  teamScores : TeamScores
  gameEnded : Bool
  pending : List (String × ℤ × Bool)
  emits : List Emit
  toRemove : List String

/-- The body of the hit branch of `updateBullets`: damage application,
`player_hit` broadcast, and on elimination the score/victory updates,
the `player_eliminated` broadcast and the scheduling of the 3000 ms
respawn timer. -/
def applyHit (now : ℤ) (limit : ℕ) (st : TickState) (b : Bullet)
    (victim : GamePlayer) : TickState :=
  let damage := effectiveDamage b
  let newHealth := victim.health - damage
  let players1 := updatePlayer st.players victim.id (fun p => { p with health := p.health - damage })
  let hitEmit : List Emit := [.bcast none (.playerHit victim.id damage b.weapon b.id)]
  if newHealth ≤ 0 then
    let players2 := updatePlayer players1 victim.id (fun p => { p with isAlive := false })
    let shooterOpt := findPlayer players2 b.playerId
    let killerName : String :=
      match shooterOpt with
      | some s => if s.name = "" then "Unknown" else s.name
      | none => "Unknown"
    let scored : List GamePlayer × TeamScores × Bool × List Emit :=
      match shooterOpt with
      | some s =>
        if ¬ (s.team = victim.team) then
          if st.gameEnded = false then
            let players3 := updatePlayer players2 b.playerId (fun p => { p with score := p.score + 100 })
            let scores' : TeamScores :=
              match s.team with
              | .red => { st.teamScores with red := st.teamScores.red + 1 }
              | .blue => { st.teamScores with blue := st.teamScores.blue + 1 }
            let scoreEmit : List Emit := [.bcast none (.teamScoresUpdate scores'.red scores'.blue)]
            let v := checkForVictory players3 scores' limit st.gameEnded
            (v.1, scores', v.2.1, scoreEmit ++ v.2.2)
          else (players2, st.teamScores, st.gameEnded, [])
        else (players2, st.teamScores, st.gameEnded, [])
      | none => (players2, st.teamScores, st.gameEnded, [])
    let elimEmit : List Emit :=
      [.bcast none (.playerEliminated victim.id victim.name b.playerId killerName b.weapon)]
    { players := scored.1,
      teamScores := scored.2.1,
      gameEnded := scored.2.2.1,
      pending := st.pending ++ [(victim.id, now + 3000, false)],
      emits := st.emits ++ hitEmit ++ scored.2.2.2 ++ elimEmit,
      toRemove := st.toRemove ++ [b.id] }
  else
    { st with players := players1, emits := st.emits ++ hitEmit, toRemove := st.toRemove ++ [b.id] }

/-- One iteration of `updateBullets`' `forEach`: expiry check (3000 ms,
checked before any movement or scan), displacement, and the hit scan.
Returns the updated shared state and the (possibly advanced) bullet. -/
def processBullet (now : ℤ) (limit : ℕ) (st : TickState) (b : Bullet) :
    TickState × Bullet :=
  if now - b.startTime > 3000 then
    ({ st with toRemove := st.toRemove ++ [b.id] }, b)
  else
    let b' := advanceBullet now b
    match findHitTarget st.players b' with
    | some victim => (applyHit now limit st b' victim, b')
    | none => (st, b')

/-- `GameRoom.updateBullets` (which is all `GameRoom.update` does, bots
being disabled): iterate the bullet map, then delete every flagged
bullet after the scan completes. -/
def updateBullets (now : ℤ) (room : GameRoom) : GameRoom × List Emit :=
  let init : TickState :=
    ⟨room.players, room.teamScores, room.gameEnded, room.pendingRespawns, [], []⟩
  let res := room.bullets.foldl (fun (acc : TickState × List Bullet) b =>
    let r := processBullet now room.scoreLimit acc.1 b
    (r.1, acc.2 ++ [r.2])) (init, [])
  let st := res.1
  let kept := res.2.filter (fun b => ¬ (st.toRemove.contains b.id = true))
  ({ room with players := st.players, bullets := kept, teamScores := st.teamScores,
               gameEnded := st.gameEnded, pendingRespawns := st.pending },
   st.emits)

/-- Remove one fired timer entry from the pending queue. -/
def removeFirstPending (l : List (String × ℤ × Bool)) (pid : String) (due : ℤ) :
    List (String × ℤ × Bool) :=
  match l with
  | [] => []
  | e :: rest =>
    if e.1 = pid ∧ e.2.1 = due then rest else e :: removeFirstPending rest pid due

/-- The staleness flag of the first pending timer entry for (pid, due). -/
def findPending (l : List (String × ℤ × Bool)) (pid : String) (due : ℤ) : Option Bool :=
  (l.find? (fun e => e.1 == pid && e.2.1 == due)).map (fun e => e.2.2)

/-- The body of the respawn `setTimeout` callback.  The closure holds
the `GamePlayer` object captured at elimination and the player id; on
firing it checks `this.players.has(playerId)` only.  If the id is
absent, nothing happens.  If the id is present, the callback sets
health 100, alive and a drawn spawn point on the captured object and
broadcasts `player_respawned` with that position — which updates the
room's member entry exactly when the captured object still is that
entry (staleness flag `false`); if `addPlayer` has replaced the entry
in the interim, the mutation lands on the orphaned object, the member
entry is left untouched, and the broadcast still goes out. -/
def fireRespawn (room : GameRoom) (pid : String) (due : ℤ) (k : ℕ) :
    GameRoom × List Emit :=
  let stale := findPending room.pendingRespawns pid due
  let room1 := { room with pendingRespawns := removeFirstPending room.pendingRespawns pid due }
  match findPlayer room1.players pid with
  | none => (room1, [])
  | some _ =>
    let pos := getRandomSpawnPoint k
    if stale = some false then
      ({ room1 with players := updatePlayer room1.players pid (fun p =>
          { p with health := 100, isAlive := true, position := pos }) },
       [.bcast none (.playerRespawned pid pos)])
    else
      (room1, [.bcast none (.playerRespawned pid pos)])

/-- The operations that can reach a room: the message handlers, the
60 Hz tick, and the firing of a scheduled respawn timer. -/
inductive RoomOp where
  | addPlayer (pd : PlayerData)
  | removePlayer (pid : String)
  | playerUpdate (pid : String) (pos rot : Vec3) (health : ℚ)
  | handleBullet (now : ℤ) (bd : BulletData)
  | tick (now : ℤ)
  | fireRespawn (pid : String) (due : ℤ) (now : ℤ) (k : ℕ)

/-- One room operation. -/
def roomStep (room : GameRoom) : RoomOp → GameRoom × List Emit
  | .addPlayer pd => addPlayer room pd
  | .removePlayer pid => removePlayer room pid
  | .playerUpdate pid pos rot h => broadcastPlayerUpdate room pid pos rot h
  | .handleBullet now bd => handleBullet room now bd
  | .tick now => updateBullets now room
  | .fireRespawn pid due _now k => fireRespawn room pid due k

/-- Well-formedness of an operation against a state: a respawn timer
can only fire if it was scheduled and its due time has been reached
(`setTimeout` never fires early). -/
def WFRoomOp (room : GameRoom) : RoomOp → Prop
  | .fireRespawn pid due now _k =>
      (∃ st, (pid, due, st) ∈ room.pendingRespawns) ∧ due ≤ now
  | _ => True

/-- Run a sequence of room operations, accumulating all emissions. -/
def runRoom (room : GameRoom) : List RoomOp → GameRoom × List Emit
  | [] => (room, [])
  | op :: ops =>
    let r := roomStep room op
    let rest := runRoom r.1 ops
    (rest.1, r.2 ++ rest.2)

/-- A registry entry (interface `Player` in `gameServer`); the `ws`
handle is modelled by a numeric connection key. -/
structure ServerPlayer where
  conn : ℕ
  id : String
  name : String
  position : Vec3
  rotation : Vec3
  health : ℚ
  color : String
  roomId : Option String

/-- The whole server (`class GameServer`): the connection→player
registry, the room table and the id counter. -/
structure GameServer where
  players : List ServerPlayer
  rooms : List (String × GameRoom)
  playerCounter : ℕ

/-- A fresh server. -/
def mkServer : GameServer := ⟨[], [], 0⟩

/-- The generated player id `player_N`. -/
def mkPlayerId (n : ℕ) : String := "player_" ++ toString n

/-- The fixed connection color palette. -/
def serverColors : List String :=
  ["#ff4444", "#44ff44", "#4444ff", "#ffff44", "#ff44ff", "#44ffff"]

/-- Registry lookup by connection (`this.players.get(ws)`). -/
def findConn (players : List ServerPlayer) (conn : ℕ) : Option ServerPlayer :=
  players.find? (fun p => p.conn == conn)

/-- Mutation of the registry entry owned by a connection. -/
def updateConn (players : List ServerPlayer) (conn : ℕ)
    (f : ServerPlayer → ServerPlayer) : List ServerPlayer :=
  players.map (fun p => if p.conn = conn then f p else p)

/-- Registry deletion (`this.players.delete(ws)`). -/
def removeConn (players : List ServerPlayer) (conn : ℕ) : List ServerPlayer :=
  players.filter (fun p => ¬ (p.conn = conn))

/-- Room-table lookup (`this.rooms.get(code)`). -/
def findRoom (rooms : List (String × GameRoom)) (code : String) : Option GameRoom :=
  (rooms.find? (fun cr => cr.1 == code)).map (fun cr => cr.2)

/-- Room-table `Map.set`. -/
def setRoom (rooms : List (String × GameRoom)) (code : String) (r : GameRoom) :
    List (String × GameRoom) :=
  match rooms with
  | [] => [(code, r)]
  | e :: rest => if e.1 = code then (code, r) :: rest else e :: setRoom rest code r

/-- Room-table `Map.delete`. -/
def removeRoom (rooms : List (String × GameRoom)) (code : String) :
    List (String × GameRoom) :=
  rooms.filter (fun cr => ¬ (cr.1 = code))

/-- `message.playerName || player.name` (JS `||`: empty string falls
through to the old name). -/
def orName (pn : Option String) (old : String) : String :=
  match pn with
  | some n => if n = "" then old else n
  | none => old

/-- `GameServer.handleConnection`: allocate a player with the next
counter-generated id, default spawn state and a round-robin color. -/
def handleConnection (s : GameServer) (conn : ℕ) : GameServer :=
  let n := s.playerCounter + 1
  let p : ServerPlayer :=
    ⟨conn, mkPlayerId n, "Player " ++ toString n, ⟨0, 0.9, 0⟩, ⟨0, 0, 0⟩, 100,
     serverColors.getD (n % serverColors.length) "", none⟩
  { s with players := s.players ++ [p], playerCounter := n }

/-- `GameServer.handleCreateRoom`; the randomly generated room code is
taken as a parameter. -/
def handleCreateRoom (s : GameServer) (conn : ℕ) (code : String)
    (pn : Option String) : GameServer × List Emit :=
  match findConn s.players conn with
  | none => (s, [])
  | some p =>
    let p1 := { p with name := orName pn p.name }
    let ar := addPlayer (mkRoom code) ⟨p1.id, p1.name, p1.position, p1.rotation, p1.health⟩
    let p2 := { p1 with roomId := some code }
    ({ s with players := updateConn s.players conn (fun _ => p2),
              rooms := setRoom s.rooms code ar.1 },
     ar.2 ++ [.send p1.id (.roomCreated code p1.id)])

/-- `GameServer.handleJoinRoom`: join if the room exists and holds
fewer than 8 players; the submitter is never removed from any room it
already occupies. -/
def handleJoinRoom (s : GameServer) (conn : ℕ) (code : String)
    (pn : Option String) : GameServer × List Emit :=
  match findConn s.players conn with
  | none => (s, [])
  | some p =>
    match findRoom s.rooms code with
    | none => (s, [.send p.id (.errorMsg "Room not found")])
    | some room =>
      if room.players.length ≥ 8 then (s, [.send p.id (.errorMsg "Room is full")])
      else
        let p1 := { p with name := orName pn p.name }
        let ar := addPlayer room ⟨p1.id, p1.name, p1.position, p1.rotation, p1.health⟩
        let p2 := { p1 with roomId := some code }
        ({ s with players := updateConn s.players conn (fun _ => p2),
                  rooms := setRoom s.rooms code ar.1 },
         ar.2 ++ [.send p1.id (.roomJoined p1.id)])

/-- `GameServer.handlePlayerUpdate`. -/
def handlePlayerUpdate (s : GameServer) (conn : ℕ) (pos rot : Vec3)
    (health : ℚ) : GameServer × List Emit :=
  match findConn s.players conn with
  | none => (s, [])
  | some p =>
    match p.roomId with
    | none => (s, [])
    | some code =>
      let p1 := { p with position := pos, rotation := rot, health := health }
      let s1 := { s with players := updateConn s.players conn (fun _ => p1) }
      match findRoom s.rooms code with
      | none => (s1, [])
      | some room =>
        let br := broadcastPlayerUpdate room p.id pos rot health
        ({ s1 with rooms := setRoom s1.rooms code br.1 }, br.2)

/-- `GameServer.handleBulletFired`: route the submission to the
submitter's room, stamping the server-side player id. -/
def handleBulletFired (s : GameServer) (conn : ℕ) (bid : String)
    (pos dir : Vec3) (weapon : String) (now : ℤ) : GameServer × List Emit :=
  match findConn s.players conn with
  | none => (s, [])
  | some p =>
    match p.roomId with
    | none => (s, [])
    | some code =>
      match findRoom s.rooms code with
      | none => (s, [])
      | some room =>
        let hb := handleBullet room now ⟨bid, p.id, pos, dir, weapon⟩
        ({ s with rooms := setRoom s.rooms code hb.1 }, hb.2)

/-- `GameServer.handleDisconnection`: remove the player from the room
referenced by its `roomId` (destroying the room if it empties) and
drop the registry entry. -/
def handleDisconnection (s : GameServer) (conn : ℕ) : GameServer × List Emit :=
  match findConn s.players conn with
  | none => (s, [])
  | some p =>
    let step1 : List (String × GameRoom) × List Emit :=
      match p.roomId with
      | none => (s.rooms, [])
      | some code =>
        match findRoom s.rooms code with
        | none => (s.rooms, [])
        | some room =>
          let rr := removePlayer room p.id
          if rr.1.players.length = 0 then (removeRoom s.rooms code, rr.2)
          else (setRoom s.rooms code rr.1, rr.2)
    ({ s with players := removeConn s.players conn, rooms := step1.1 }, step1.2)

/-- `GameServer.updateAllRooms`: the shared 60 Hz timer ticking every
room in table order. -/
def updateAllRooms (s : GameServer) (now : ℤ) : GameServer × List Emit :=
  let res := s.rooms.foldl (fun (acc : List (String × GameRoom) × List Emit) cr =>
    let u := updateBullets now cr.2
    (acc.1 ++ [(cr.1, u.1)], acc.2 ++ u.2)) ([], [])
  ({ s with rooms := res.1 }, res.2)

/-- A room-scoped respawn timer firing, routed at server level. -/
def serverFireRespawn (s : GameServer) (code : String) (pid : String)
    (due : ℤ) (k : ℕ) : GameServer × List Emit :=
  match findRoom s.rooms code with
  | none => (s, [])
  | some room =>
    let fr := fireRespawn room pid due k
    ({ s with rooms := setRoom s.rooms code fr.1 }, fr.2)

/-- Server-level operations: connection lifecycle, the dispatched
message kinds, the shared tick, and respawn timers. -/
inductive ServerOp where
  | connect (conn : ℕ)
  | createRoom (conn : ℕ) (code : String) (playerName : Option String)
  | joinRoom (conn : ℕ) (code : String) (playerName : Option String)
  | playerUpdate (conn : ℕ) (pos rot : Vec3) (health : ℚ)
  | bulletFired (conn : ℕ) (bid : String) (pos dir : Vec3) (weapon : String) (now : ℤ)
  | disconnect (conn : ℕ)
  | tickAll (now : ℤ)
  | respawnTimer (code : String) (pid : String) (due : ℤ) (k : ℕ)

/-- One server operation. -/
def serverStep (s : GameServer) : ServerOp → GameServer × List Emit
  | .connect conn => (handleConnection s conn, [])
  | .createRoom conn code pn => handleCreateRoom s conn code pn
  | .joinRoom conn code pn => handleJoinRoom s conn code pn
  | .playerUpdate conn pos rot h => handlePlayerUpdate s conn pos rot h
  | .bulletFired conn bid pos dir w now => handleBulletFired s conn bid pos dir w now
  | .disconnect conn => handleDisconnection s conn
  | .tickAll now => updateAllRooms s now
  | .respawnTimer code pid due k => serverFireRespawn s code pid due k

/-- Run a sequence of server operations. -/
def runServer (s : GameServer) : List ServerOp → GameServer
  | [] => s
  | op :: ops => runServer (serverStep s op).1 ops

/-- In how many rooms' player maps does the player id occur? -/
def memberCount (s : GameServer) (pid : String) : ℕ :=
  s.rooms.countP (fun cr => cr.2.players.any (fun p => p.id == pid))

/-- The number of `create_room` / `join_room` operations of a trace
issued from a connection whose registry entry carries the id `pid` at
the moment the operation is processed. -/
def entryCount (s : GameServer) (pid : String) : List ServerOp → ℕ
  | [] => 0
  | op :: ops =>
    let here : ℕ :=
      match op with
      | .createRoom conn _ _ =>
        match findConn s.players conn with
        | some p => if p.id = pid then 1 else 0
        | none => 0
      | .joinRoom conn _ _ =>
        match findConn s.players conn with
        | some p => if p.id = pid then 1 else 0
        | none => 0
      | _ => 0
    here + entryCount (serverStep s op).1 pid ops

/-- The stored form of an accepted shot: normalized direction, spawn
and update timestamps both `now`, stored speed `100`, no precomputed
damage. -/
def acceptedBullet (now : ℤ) (bd : BulletData) : Bullet :=
  ⟨bd.id, bd.playerId, bd.position, normVec bd.direction, bd.weapon, now, now, 100, none⟩

/-- The (id, team) projection of a player list; hit attribution and
friendly-fire checks depend only on this. -/
def roster (players : List GamePlayer) : List (String × Team) :=
  players.map (fun p => (p.id, p.team))

/-- The team of the player with the given id, if present. -/
def teamOfId (players : List GamePlayer) (pid : String) : Option Team :=
  (findPlayer players pid).map (fun p => p.team)

/-- Modelled from the spec: the play area the specification's
"out-of-bounds displacement" refers to.  The server tick itself
contains no bounds check; the only bounds test in the repository is
the client-side rendering cleanup, which despawns a bullet once
`|x| > 100` or `|z| > 100`. -/
def specOutOfBounds (v : Vec3) : Prop := 100 < |v.x| ∨ 100 < |v.z|

/-- Is this emission a `team_victory` broadcast? -/
def isVB : Emit → Bool
  | .bcast _ (.teamVictory _ _ _) => true
  | _ => false

/-- Is this emission a `bullet_fired` broadcast? -/
def isBF : Emit → Bool
  | .bcast _ (.bulletFired _ _ _ _ _ _ _) => true
  | _ => false

/-- Number of `team_victory` broadcasts in an emission list. -/
def countVB (l : List Emit) : ℕ := l.countP isVB

/-- Number of `bullet_fired` broadcasts in an emission list. -/
def countBF (l : List Emit) : ℕ := l.countP isBF

/-- Relation between the score counters, ended flag and fresh
emissions across one mutation: counters never decrease, an ended room
freezes them, the flag only changes when a counter changes, and a
`team_victory` broadcast happens exactly on the transition of the
ended flag. -/
def ScoresOK (ts ts' : TeamScores) (e e' : Bool) (new : List Emit) : Prop :=
  ts.red ≤ ts'.red ∧ ts.blue ≤ ts'.blue ∧
  (e = true → ts' = ts ∧ e' = true) ∧
  (ts' = ts → e' = e) ∧
  countVB new = (if e = false ∧ e' = true then 1 else 0)

/-- The same relation packaged for tick-internal states (emissions are
accumulated on the state, so the fresh suffix is existential). -/
def TickOK (st st' : TickState) : Prop :=
  ∃ new, st'.emits = st.emits ++ new ∧
    ScoresOK st.teamScores st'.teamScores st.gameEnded st'.gameEnded new

/-! ### Elementary lemmas about the embedded operations -/

theorem countVB_append (l₁ l₂ : List Emit) : countVB (l₁ ++ l₂) = countVB l₁ + countVB l₂ := by
  simp [countVB, List.countP_append]

theorem countBF_append (l₁ l₂ : List Emit) : countBF (l₁ ++ l₂) = countBF l₁ + countBF l₂ := by
  simp [countBF, List.countP_append]

theorem handleBullet_rateDropped {room : GameRoom} {now : ℤ} {bd : BulletData}
    {p : GamePlayer} (hp : findPlayer room.players bd.playerId = some p)
    (hlt : now - p.lastShotTime < 100) :
    handleBullet room now bd = (room, []) := by
  simp [handleBullet, hp, hlt]

theorem handleBullet_zeroDir_present {room : GameRoom} {now : ℤ} {bd : BulletData}
    {p : GamePlayer} (hp : findPlayer room.players bd.playerId = some p)
    (hge : ¬ now - p.lastShotTime < 100) (hz : dirLen bd.direction ≤ 1e-6) :
    handleBullet room now bd =
      ({ room with
          players := updatePlayer room.players bd.playerId
                       (fun q => { q with lastShotTime := now }) }, []) := by
  simp [handleBullet, hp, hge, hz]

theorem handleBullet_zeroDir_absent {room : GameRoom} {now : ℤ} {bd : BulletData}
    (hp : findPlayer room.players bd.playerId = none)
    (hz : dirLen bd.direction ≤ 1e-6) :
    handleBullet room now bd = (room, []) := by
  simp [handleBullet, hp, hz]

theorem handleBullet_accepted_present {room : GameRoom} {now : ℤ} {bd : BulletData}
    {p : GamePlayer} (hp : findPlayer room.players bd.playerId = some p)
    (hge : ¬ now - p.lastShotTime < 100) (hnz : ¬ dirLen bd.direction ≤ 1e-6) :
    handleBullet room now bd =
      ({ room with
          players := updatePlayer room.players bd.playerId
                       (fun q => { q with lastShotTime := now }),
          bullets := setBullet room.bullets (acceptedBullet now bd) },
       [.bcast none (.bulletFired bd.id bd.playerId bd.position (normVec bd.direction)
          bd.weapon (getWeaponSpeed bd.weapon) (getWeaponDamage bd.weapon))]) := by
  simp [handleBullet, hp, hge, hnz, acceptedBullet]

theorem handleBullet_accepted_absent {room : GameRoom} {now : ℤ} {bd : BulletData}
    (hp : findPlayer room.players bd.playerId = none)
    (hnz : ¬ dirLen bd.direction ≤ 1e-6) :
    handleBullet room now bd =
      ({ room with bullets := setBullet room.bullets (acceptedBullet now bd) },
       [.bcast none (.bulletFired bd.id bd.playerId bd.position (normVec bd.direction)
          bd.weapon (getWeaponSpeed bd.weapon) (getWeaponDamage bd.weapon))]) := by
  simp [handleBullet, hp, hnz, acceptedBullet]

theorem dirLen_nonneg (v : Vec3) : 0 ≤ dirLen v := Real.sqrt_nonneg _

theorem dirLen_normVec {v : Vec3} (h : ¬ dirLen v ≤ 1e-6) : dirLen (normVec v) = 1 := by
  have hL : (0 : ℝ) < dirLen v := lt_of_le_of_lt (by norm_num) (not_le.mp h)
  have hLne : dirLen v ≠ 0 := ne_of_gt hL
  have hs : (0 : ℝ) ≤ v.x * v.x + v.y * v.y + v.z * v.z := by
    have hx := mul_self_nonneg v.x
    have hy := mul_self_nonneg v.y
    have hz := mul_self_nonneg v.z
    linarith
  have hmul : dirLen v * dirLen v = v.x * v.x + v.y * v.y + v.z * v.z :=
    Real.mul_self_sqrt hs
  have hsne : v.x * v.x + v.y * v.y + v.z * v.z ≠ 0 := by
    intro h0
    rw [h0] at hmul
    exact hLne (by nlinarith)
  have : (v.x / dirLen v) * (v.x / dirLen v) + (v.y / dirLen v) * (v.y / dirLen v) +
      (v.z / dirLen v) * (v.z / dirLen v) = 1 := by
    field_simp
    rw [hmul]
  unfold dirLen normVec
  simp only [this]
  exact Real.sqrt_one

/-! ### Score, ended-flag and victory-broadcast bookkeeping -/

theorem ScoresOK_refl {ts : TeamScores} {e : Bool} {new : List Emit}
    (h : countVB new = 0) : ScoresOK ts ts e e new := by
  refine ⟨le_refl _, le_refl _, fun he => ⟨rfl, he⟩, fun _ => rfl, ?_⟩
  cases e <;> simp [h]

theorem ScoresOK_trans {ts ts' ts'' : TeamScores} {e e' e'' : Bool}
    {new new' : List Emit} (h1 : ScoresOK ts ts' e e' new)
    (h2 : ScoresOK ts' ts'' e' e'' new') :
    ScoresOK ts ts'' e e'' (new ++ new') := by
  obtain ⟨r1, b1, f1, c1, v1⟩ := h1
  obtain ⟨r2, b2, f2, c2, v2⟩ := h2
  refine ⟨le_trans r1 r2, le_trans b1 b2, ?_, ?_, ?_⟩
  · intro he
    obtain ⟨hts, he'⟩ := f1 he
    obtain ⟨hts', he''⟩ := f2 he'
    exact ⟨hts'.trans hts, he''⟩
  · intro heq
    have hred : ts'.red = ts.red :=
      le_antisymm (by rw [congrArg TeamScores.red heq] at r2; exact r2) r1
    have hblue : ts'.blue = ts.blue :=
      le_antisymm (by rw [congrArg TeamScores.blue heq] at b2; exact b2) b1
    have hts' : ts' = ts := by
      cases ts'
      cases ts
      simp_all
    rw [c2 (heq.trans hts'.symm), c1 hts']
  · rw [countVB_append, v1, v2]
    cases e with
    | true =>
      obtain ⟨_, he'⟩ := f1 rfl
      obtain ⟨_, he''⟩ := f2 he'
      simp [he', he'']
    | false =>
      cases e' with
      | false => simp
      | true =>
        obtain ⟨_, he''⟩ := f2 rfl
        simp [he'']

theorem TickOK_refl_of {st st' : TickState} (hts : st'.teamScores = st.teamScores)
    (he : st'.gameEnded = st.gameEnded)
    (hnew : ∃ new, st'.emits = st.emits ++ new ∧ countVB new = 0) : TickOK st st' := by
  obtain ⟨new, hn, hc⟩ := hnew
  exact ⟨new, hn, by rw [hts, he]; exact ScoresOK_refl hc⟩

theorem TickOK_trans {st st' st'' : TickState} (h1 : TickOK st st')
    (h2 : TickOK st' st'') : TickOK st st'' := by
  obtain ⟨n1, e1, s1⟩ := h1
  obtain ⟨n2, e2, s2⟩ := h2
  exact ⟨n1 ++ n2, by rw [e2, e1, List.append_assoc], ScoresOK_trans s1 s2⟩

theorem checkForVictory_ended (players : List GamePlayer) (scores : TeamScores)
    (limit : ℕ) : checkForVictory players scores limit true = (players, true, []) := by
  simp [checkForVictory]

theorem checkForVictory_countVB (players : List GamePlayer) (scores : TeamScores)
    (limit : ℕ) :
    countVB (checkForVictory players scores limit false).2.2 =
      (if (checkForVictory players scores limit false).2.1 = true then 1 else 0) := by
  unfold checkForVictory
  by_cases hr : scores.red ≥ limit
  · simp [hr, countVB, isVB]
  · by_cases hb : scores.blue ≥ limit
    · simp [hr, hb, countVB, isVB]
    · simp [hr, hb, countVB, isVB]

theorem applyHit_TickOK (now : ℤ) (limit : ℕ) (st : TickState) (b : Bullet)
    (victim : GamePlayer) : TickOK st (applyHit now limit st b victim) := by
  unfold applyHit
  by_cases hdead : victim.health - effectiveDamage b ≤ 0
  · simp only [hdead, if_true]
    cases hsh : findPlayer (updatePlayer
        (updatePlayer st.players victim.id fun p => { p with health := p.health - effectiveDamage b })
        victim.id fun p => { p with isAlive := false }) b.playerId with
    | none =>
      simp only [hsh]
      refine TickOK_refl_of rfl rfl
        ⟨_, by rw [List.append_assoc, List.append_assoc], ?_⟩
      simp [countVB, isVB, List.countP_append, List.countP_cons]
    | some s =>
      by_cases hteam : s.team = victim.team
      · simp only [hsh, hteam, not_true_eq_false, if_neg, ite_false]
        refine TickOK_refl_of rfl rfl
          ⟨_, by rw [List.append_assoc, List.append_assoc], ?_⟩
        simp [countVB, isVB, List.countP_append, List.countP_cons]
      · cases hendb : st.gameEnded with
        | true =>
          simp only [hsh, hteam, hendb, not_false_eq_true, ite_true, Bool.true_eq_false,
            if_false, ite_false]
          refine TickOK_refl_of rfl ?_ ⟨_, by rw [List.append_assoc, List.append_assoc], ?_⟩
          · exact hendb.symm
          · simp [countVB, isVB, List.countP_append, List.countP_cons]
        | false =>
          simp only [hsh, hteam, hendb, not_false_eq_true, ite_true]
          cases hst : s.team with
          | red =>
            simp only [hst]
            refine ⟨_, by rw [List.append_assoc, List.append_assoc], ?_, ?_, ?_, ?_, ?_⟩
            · simp
            · simp
            · intro he
              rw [hendb] at he
              exact Bool.noConfusion he
            · intro heq
              exact absurd (congrArg TeamScores.red heq) (by simp)
            · have hcv := checkForVictory_countVB
                (updatePlayer (updatePlayer
                  (updatePlayer st.players victim.id fun p => { p with health := p.health - effectiveDamage b })
                  victim.id fun p => { p with isAlive := false }) b.playerId
                  fun p => { p with score := p.score + 100 })
                { st.teamScores with red := st.teamScores.red + 1 } limit
              rw [hendb]
              simp only [countVB, isVB, List.countP_append, List.countP_cons] at hcv ⊢
              simp [hcv]
          | blue =>
            simp only [hst]
            refine ⟨_, by rw [List.append_assoc, List.append_assoc], ?_, ?_, ?_, ?_, ?_⟩
            · simp
            · simp
            · intro he
              rw [hendb] at he
              exact Bool.noConfusion he
            · intro heq
              exact absurd (congrArg TeamScores.blue heq) (by simp)
            · have hcv := checkForVictory_countVB
                (updatePlayer (updatePlayer
                  (updatePlayer st.players victim.id fun p => { p with health := p.health - effectiveDamage b })
                  victim.id fun p => { p with isAlive := false }) b.playerId
                  fun p => { p with score := p.score + 100 })
                { st.teamScores with blue := st.teamScores.blue + 1 } limit
              rw [hendb]
              simp only [countVB, isVB, List.countP_append, List.countP_cons] at hcv ⊢
              simp [hcv]
  · simp only [hdead, if_false]
    refine TickOK_refl_of rfl rfl ⟨_, rfl, ?_⟩
    simp [countVB, isVB, List.countP_append, List.countP_cons]

theorem processBullet_TickOK (now : ℤ) (limit : ℕ) (st : TickState) (b : Bullet) :
    TickOK st (processBullet now limit st b).1 := by
  unfold processBullet
  by_cases hexp : now - b.startTime > 3000
  · simp only [hexp, if_true]
    exact TickOK_refl_of rfl rfl ⟨[], by simp, rfl⟩
  · simp only [hexp, if_false]
    cases hft : findHitTarget st.players (advanceBullet now b) with
    | none =>
      simp only [hft]
      exact TickOK_refl_of rfl rfl ⟨[], by simp, rfl⟩
    | some victim =>
      simp only [hft]
      exact applyHit_TickOK now limit st (advanceBullet now b) victim

theorem foldlBullets_TickOK (now : ℤ) (limit : ℕ) (bs : List Bullet)
    (acc : TickState × List Bullet) :
    TickOK acc.1 (bs.foldl (fun (a : TickState × List Bullet) b =>
      let r := processBullet now limit a.1 b
      (r.1, a.2 ++ [r.2])) acc).1 := by
  induction bs generalizing acc with
  | nil => exact TickOK_refl_of rfl rfl ⟨[], by simp, rfl⟩
  | cons b rest ih =>
    simp only [List.foldl_cons]
    exact TickOK_trans (processBullet_TickOK now limit acc.1 b) (ih _)

theorem updateBullets_scoresOK (now : ℤ) (room : GameRoom) :
    ScoresOK room.teamScores (updateBullets now room).1.teamScores room.gameEnded
      (updateBullets now room).1.gameEnded (updateBullets now room).2 := by
  obtain ⟨new, hn, hs⟩ := foldlBullets_TickOK now room.scoreLimit room.bullets
    (⟨room.players, room.teamScores, room.gameEnded, room.pendingRespawns, [], []⟩, [])
  simp only [updateBullets]
  rw [show ((⟨room.players, room.teamScores, room.gameEnded, room.pendingRespawns,
    [], []⟩ : TickState)) = (⟨room.players, room.teamScores, room.gameEnded,
    room.pendingRespawns, [], []⟩ : TickState) from rfl] at hn
  simp only [List.nil_append] at hn
  simpa [hn] using hs

theorem roomStep_scoresOK (room : GameRoom) (op : RoomOp) :
    ScoresOK room.teamScores (roomStep room op).1.teamScores room.gameEnded
      (roomStep room op).1.gameEnded (roomStep room op).2 := by
  cases op with
  | tick now => exact updateBullets_scoresOK now room
  | addPlayer pd =>
    refine ScoresOK_refl ?_
    simp only [roomStep, addPlayer]
    by_cases h : room.gameEnded = true ∧
        (room.teamScores.red ≥ room.scoreLimit ∨ room.teamScores.blue ≥ room.scoreLimit)
    · simp [h, countVB, isVB, List.countP_append, List.countP_cons, List.countP_map,
        Function.comp]
    · simp [h, countVB, isVB, List.countP_append, List.countP_cons, List.countP_map,
        Function.comp]
  | removePlayer pid =>
    simp only [roomStep, removePlayer]
    cases h : findPlayer room.players pid with
    | none => exact ScoresOK_refl rfl
    | some p =>
      refine ScoresOK_refl ?_
      simp [countVB, isVB, List.countP_cons]
  | playerUpdate pid pos rot hq =>
    simp only [roomStep, broadcastPlayerUpdate]
    cases h : findPlayer room.players pid with
    | none => exact ScoresOK_refl rfl
    | some p =>
      refine ScoresOK_refl ?_
      simp [countVB, isVB, List.countP_cons]
  | fireRespawn pid due now k =>
    simp only [roomStep, fireRespawn]
    cases h : findPlayer room.players pid with
    | none =>
      simp only [h]
      exact ScoresOK_refl rfl
    | some p =>
      simp only [h]
      split_ifs with hst
      · refine ScoresOK_refl ?_
        simp [countVB, isVB, List.countP_cons]
      · refine ScoresOK_refl ?_
        simp [countVB, isVB, List.countP_cons]
  | handleBullet now bd =>
    simp only [roomStep]
    cases hfp : findPlayer room.players bd.playerId with
    | some p =>
      by_cases hrl : now - p.lastShotTime < 100
      · rw [handleBullet_rateDropped hfp hrl]
        exact ScoresOK_refl rfl
      · by_cases hz : dirLen bd.direction ≤ 1e-6
        · rw [handleBullet_zeroDir_present hfp hrl hz]
          exact ScoresOK_refl rfl
        · rw [handleBullet_accepted_present hfp hrl hz]
          refine ScoresOK_refl ?_
          simp [countVB, isVB, List.countP_cons]
    | none =>
      by_cases hz : dirLen bd.direction ≤ 1e-6
      · rw [handleBullet_zeroDir_absent hfp hz]
        exact ScoresOK_refl rfl
      · rw [handleBullet_accepted_absent hfp hz]
        refine ScoresOK_refl ?_
        simp [countVB, isVB, List.countP_cons]

theorem runRoom_scoresOK (ops : List RoomOp) (room : GameRoom) :
    ScoresOK room.teamScores (runRoom room ops).1.teamScores room.gameEnded
      (runRoom room ops).1.gameEnded (runRoom room ops).2 := by
  induction ops generalizing room with
  | nil => exact ScoresOK_refl rfl
  | cons op rest ih =>
    simp only [runRoom]
    exact ScoresOK_trans (roomStep_scoresOK room op) (ih _)

theorem checkForVictory_winner (players : List GamePlayer) (scores : TeamScores)
    (limit : ℕ) (h : scores.red ≥ limit ∨ scores.blue ≥ limit) :
    ∃ w : Team, checkForVictory players scores limit false =
      (players.map (fun p => if p.team = w then { p with score := p.score + 500 } else p),
       true, [.bcast none (.teamVictory w scores.red scores.blue)]) := by
  unfold checkForVictory
  by_cases hr : scores.red ≥ limit
  · exact ⟨.red, by simp [hr]⟩
  · have hb : scores.blue ≥ limit := h.resolve_left hr
    exact ⟨.blue, by simp [hr, hb]⟩

/-- C2: in each room both team score counters are monotonically
non-decreasing under every single operation; while the game-ended flag
is false this is the only way they move, and once the flag is true no
subsequent operation or tick ever mutates either counter again (and
the flag stays true). -/
theorem C2_team_scores_monotone :
    (∀ (room : GameRoom) (op : RoomOp),
        room.teamScores.red ≤ (roomStep room op).1.teamScores.red ∧
        room.teamScores.blue ≤ (roomStep room op).1.teamScores.blue) ∧
    (∀ (room : GameRoom) (op : RoomOp), room.gameEnded = true →
        (roomStep room op).1.teamScores = room.teamScores ∧
        (roomStep room op).1.gameEnded = true) ∧
    (∀ (room : GameRoom) (ops : List RoomOp), room.gameEnded = true →
        (runRoom room ops).1.teamScores = room.teamScores ∧
        (runRoom room ops).1.gameEnded = true) := by
  refine ⟨fun room op => ?_, fun room op he => ?_, fun room ops he => ?_⟩
  · have h := roomStep_scoresOK room op
    exact ⟨h.1, h.2.1⟩
  · exact (roomStep_scoresOK room op).2.2.1 he
  · exact (runRoom_scoresOK ops room).2.2.1 he

/-- Witness for C2 at a concrete ended room and a concrete operation
sequence. -/
theorem C2_team_scores_monotone_witness :
    (runRoom ⟨"R", [], [], ⟨7, 3⟩, 50, true, []⟩
        [.tick 5, .removePlayer "x", .tick 6]).1.teamScores = ⟨7, 3⟩ ∧
    (runRoom ⟨"R", [], [], ⟨7, 3⟩, 50, true, []⟩
        [.tick 5, .removePlayer "x", .tick 6]).1.gameEnded = true :=
  C2_team_scores_monotone.2.2 ⟨"R", [], [], ⟨7, 3⟩, 50, true, []⟩
    [.tick 5, .removePlayer "x", .tick 6] rfl

/-- C4: starting from a fresh room, the number of `team_victory`
broadcasts over any whole lifetime is exactly one if the game has
ended and zero otherwise (hence at most one ever); the ended flag is
permanent; on the score change that reaches the limit with the game
not yet ended, `checkForVictory` sets the flag, broadcasts the single
victory event with the final scores and adds the one-time 500 bonus to
exactly the winning team's members; and a tick that changes no team
counter never broadcasts a victory nor changes the flag (the check
runs only after a score change). -/
theorem C4_victory_exactly_once :
    (∀ (code : String) (ops : List RoomOp),
        countVB (runRoom (mkRoom code) ops).2 =
          (if (runRoom (mkRoom code) ops).1.gameEnded = true then 1 else 0)) ∧
    (∀ (room : GameRoom) (ops : List RoomOp), room.gameEnded = true →
        (runRoom room ops).1.gameEnded = true) ∧
    (∀ (players : List GamePlayer) (scores : TeamScores) (limit : ℕ),
        scores.red ≥ limit ∨ scores.blue ≥ limit →
        ∃ w : Team, checkForVictory players scores limit false =
          (players.map (fun p => if p.team = w then { p with score := p.score + 500 } else p),
           true, [.bcast none (.teamVictory w scores.red scores.blue)])) ∧
    (∀ (room : GameRoom) (now : ℤ),
        (updateBullets now room).1.teamScores = room.teamScores →
        countVB (updateBullets now room).2 = 0 ∧
        (updateBullets now room).1.gameEnded = room.gameEnded) := by
  refine ⟨fun code ops => ?_, fun room ops he => ?_,
    fun players scores limit h => checkForVictory_winner players scores limit h,
    fun room now hts => ?_⟩
  · have h5 := (runRoom_scoresOK ops (mkRoom code)).2.2.2.2
    simpa [mkRoom] using h5
  · exact ((runRoom_scoresOK ops room).2.2.1 he).2
  · have h := updateBullets_scoresOK now room
    have he' := h.2.2.2.1 hts
    refine ⟨?_, he'⟩
    rw [h.2.2.2.2, he']
    cases room.gameEnded <;> simp

theorem advanceBullet_direction (now : ℤ) (b : Bullet) :
    (advanceBullet now b).direction = b.direction := rfl

theorem setBullet_mem {l : List Bullet} {b a : Bullet} (h : a ∈ setBullet l b) :
    a = b ∨ a ∈ l := by
  induction l with
  | nil => simpa [setBullet] using h
  | cons q rest ih =>
    simp only [setBullet] at h
    by_cases hq : q.id = b.id
    · rw [if_pos hq] at h
      rcases List.mem_cons.mp h with h | h
      · exact Or.inl h
      · exact Or.inr (List.mem_cons_of_mem _ h)
    · rw [if_neg hq] at h
      rcases List.mem_cons.mp h with h | h
      · exact Or.inr (by simp [h])
      · rcases ih h with h' | h'
        · exact Or.inl h'
        · exact Or.inr (List.mem_cons_of_mem _ h')

theorem processBullet_snd (now : ℤ) (limit : ℕ) (st : TickState) (b : Bullet) :
    (processBullet now limit st b).2 =
      if now - b.startTime > 3000 then b else advanceBullet now b := by
  unfold processBullet
  split_ifs with h
  · rfl
  · cases hft : findHitTarget st.players (advanceBullet now b) <;> simp [hft]

theorem foldlBullets_snd (now : ℤ) (limit : ℕ) (bs : List Bullet)
    (acc : TickState × List Bullet) :
    (bs.foldl (fun (a : TickState × List Bullet) b =>
      let r := processBullet now limit a.1 b
      (r.1, a.2 ++ [r.2])) acc).2 =
      acc.2 ++ bs.map (fun b =>
        if now - b.startTime > 3000 then b else advanceBullet now b) := by
  induction bs generalizing acc with
  | nil => simp
  | cons b rest ih =>
    simp only [List.foldl_cons, List.map_cons]
    rw [ih]
    simp [processBullet_snd]

theorem updateBullets_bullets_mem (now : ℤ) (room : GameRoom) {b : Bullet}
    (h : b ∈ (updateBullets now room).1.bullets) :
    ∃ b₀ ∈ room.bullets, b.direction = b₀.direction := by
  simp only [updateBullets] at h
  have h2 := List.mem_of_mem_filter h
  rw [foldlBullets_snd] at h2
  simp only [List.nil_append, List.mem_map] at h2
  obtain ⟨b₀, hb₀, heq⟩ := h2
  refine ⟨b₀, hb₀, ?_⟩
  by_cases hexp : now - b₀.startTime > 3000
  · rw [if_pos hexp] at heq
    rw [← heq]
  · rw [if_neg hexp] at heq
    rw [← heq]
    rfl

theorem removePlayer_bullets (room : GameRoom) (pid : String) :
    (removePlayer room pid).1.bullets = room.bullets := by
  unfold removePlayer
  cases h : findPlayer room.players pid <;> simp [h]

theorem broadcastPlayerUpdate_bullets (room : GameRoom) (pid : String)
    (pos rot : Vec3) (hq : ℚ) :
    (broadcastPlayerUpdate room pid pos rot hq).1.bullets = room.bullets := by
  unfold broadcastPlayerUpdate
  cases h : findPlayer room.players pid <;> simp [h]

theorem fireRespawn_bullets (room : GameRoom) (pid : String) (due : ℤ) (k : ℕ) :
    (fireRespawn room pid due k).1.bullets = room.bullets := by
  unfold fireRespawn
  cases h : findPlayer room.players pid with
  | none => simp [h]
  | some p =>
    simp only [h]
    split_ifs <;> rfl

theorem roomStep_dirOK (room : GameRoom) (op : RoomOp)
    (h : ∀ b ∈ room.bullets, dirLen b.direction = 1) :
    ∀ b ∈ (roomStep room op).1.bullets, dirLen b.direction = 1 := by
  cases op with
  | addPlayer pd => exact h
  | removePlayer pid =>
    intro b hb
    rw [show (roomStep room (.removePlayer pid)).1.bullets = room.bullets from
      removePlayer_bullets room pid] at hb
    exact h b hb
  | playerUpdate pid pos rot hq =>
    intro b hb
    rw [show (roomStep room (.playerUpdate pid pos rot hq)).1.bullets = room.bullets from
      broadcastPlayerUpdate_bullets room pid pos rot hq] at hb
    exact h b hb
  | fireRespawn pid due now k =>
    intro b hb
    rw [show (roomStep room (.fireRespawn pid due now k)).1.bullets = room.bullets from
      fireRespawn_bullets room pid due k] at hb
    exact h b hb
  | tick now =>
    intro b hb
    obtain ⟨b₀, hb₀, hdir⟩ := updateBullets_bullets_mem now room hb
    rw [hdir]
    exact h b₀ hb₀
  | handleBullet now bd =>
    intro b hb
    simp only [roomStep] at hb
    rcases hfp : findPlayer room.players bd.playerId with _ | p
    · by_cases hz : dirLen bd.direction ≤ 1e-6
      · rw [handleBullet_zeroDir_absent hfp hz] at hb
        exact h b hb
      · rw [handleBullet_accepted_absent hfp hz] at hb
        rcases setBullet_mem hb with hbeq | hbm
        · rw [hbeq]
          exact dirLen_normVec hz
        · exact h b hbm
    · by_cases hrl : now - p.lastShotTime < 100
      · rw [handleBullet_rateDropped hfp hrl] at hb
        exact h b hb
      · by_cases hz : dirLen bd.direction ≤ 1e-6
        · rw [handleBullet_zeroDir_present hfp hrl hz] at hb
          exact h b hb
        · rw [handleBullet_accepted_present hfp hrl hz] at hb
          rcases setBullet_mem hb with hbeq | hbm
          · rw [hbeq]
            exact dirLen_normVec hz
          · exact h b hbm

theorem runRoom_dirOK (ops : List RoomOp) (room : GameRoom)
    (h : ∀ b ∈ room.bullets, dirLen b.direction = 1) :
    ∀ b ∈ (runRoom room ops).1.bullets, dirLen b.direction = 1 := by
  induction ops generalizing room with
  | nil => exact h
  | cons op rest ih =>
    simp only [runRoom]
    exact ih _ (roomStep_dirOK room op h)

/-- Witness for C4: the closed facts obtained from the theorem at a
concrete trace, a concrete limit-reaching score table and a concrete
room. -/
theorem C4_victory_exactly_once_witness :
    countVB (runRoom (mkRoom "R") [.tick 3]).2 =
      (if (runRoom (mkRoom "R") [.tick 3]).1.gameEnded = true then 1 else 0) ∧
    (∃ w : Team, checkForVictory [] ⟨50, 0⟩ 50 false =
      (([] : List GamePlayer).map (fun p => if p.team = w then { p with score := p.score + 500 } else p),
       true, [.bcast none (.teamVictory w 50 0)])) ∧
    (countVB (updateBullets 9 (mkRoom "S")).2 = 0 ∧
      (updateBullets 9 (mkRoom "S")).1.gameEnded = (mkRoom "S").gameEnded) :=
  ⟨C4_victory_exactly_once.1 "R" [.tick 3],
   C4_victory_exactly_once.2.2.1 [] ⟨50, 0⟩ 50 (Or.inl (by norm_num)),
   C4_victory_exactly_once.2.2.2 (mkRoom "S") 9 rfl⟩

/-- C6: in every room state reachable from a fresh room, every stored
bullet's direction vector has unit length (within `1e-6`; in fact
exactly 1), and a shot submission whose direction has length at most
`1e-6` stores no bullet and broadcasts nothing. -/
theorem C6_unit_direction :
    (∀ (code : String) (ops : List RoomOp) (b : Bullet),
        b ∈ (runRoom (mkRoom code) ops).1.bullets →
        |dirLen b.direction - 1| ≤ 1e-6) ∧
    (∀ (room : GameRoom) (now : ℤ) (bd : BulletData),
        dirLen bd.direction ≤ 1e-6 →
        (handleBullet room now bd).1.bullets = room.bullets ∧
        (handleBullet room now bd).2 = []) := by
  constructor
  · intro code ops b hb
    have h1 : dirLen b.direction = 1 :=
      runRoom_dirOK ops (mkRoom code) (by intro b hb; simp [mkRoom] at hb) b hb
    rw [h1]
    norm_num
  · intro room now bd hz
    rcases hfp : findPlayer room.players bd.playerId with _ | p
    · rw [handleBullet_zeroDir_absent hfp hz]
      exact ⟨rfl, rfl⟩
    · by_cases hrl : now - p.lastShotTime < 100
      · rw [handleBullet_rateDropped hfp hrl]
        exact ⟨rfl, rfl⟩
      · rw [handleBullet_zeroDir_present hfp hrl hz]
        exact ⟨rfl, rfl⟩

/-- Witness for C6: a concretely accepted diagonal-free shot stored in
a fresh room has unit direction, and a concrete zero-direction
submission is dropped without storage or broadcast. -/
theorem C6_unit_direction_witness :
    |dirLen (acceptedBullet 1000 ⟨"b1", "P", ⟨0, 0, 0⟩, ⟨0, 0, 1⟩, "rifle"⟩).direction - 1|
        ≤ 1e-6 ∧
    ((handleBullet (mkRoom "Z") 5 ⟨"b2", "Q", ⟨0, 0, 0⟩, ⟨0, 0, 0⟩, "pistol"⟩).1.bullets =
        (mkRoom "Z").bullets ∧
     (handleBullet (mkRoom "Z") 5 ⟨"b2", "Q", ⟨0, 0, 0⟩, ⟨0, 0, 0⟩, "pistol"⟩).2 = []) := by
  constructor
  · have hne : ¬ dirLen ⟨0, 0, 1⟩ ≤ 1e-6 := by
      rw [show dirLen ⟨0, 0, 1⟩ = 1 from by unfold dirLen; norm_num [Real.sqrt_one]]
      norm_num
    apply C6_unit_direction.1 "W" [.handleBullet 1000 ⟨"b1", "P", ⟨0, 0, 0⟩, ⟨0, 0, 1⟩, "rifle"⟩]
    have hfp : findPlayer (mkRoom "W").players
        (⟨"b1", "P", ⟨0, 0, 0⟩, ⟨0, 0, 1⟩, "rifle"⟩ : BulletData).playerId = none := rfl
    have hrun : (runRoom (mkRoom "W")
        [.handleBullet 1000 ⟨"b1", "P", ⟨0, 0, 0⟩, ⟨0, 0, 1⟩, "rifle"⟩]).1.bullets =
        [acceptedBullet 1000 ⟨"b1", "P", ⟨0, 0, 0⟩, ⟨0, 0, 1⟩, "rifle"⟩] := by
      simp only [runRoom, roomStep]
      rw [@handleBullet_accepted_absent (mkRoom "W") 1000
        ⟨"b1", "P", ⟨0, 0, 0⟩, ⟨0, 0, 1⟩, "rifle"⟩ hfp hne]
      rfl
    rw [hrun]
    exact List.mem_singleton.mpr rfl
  · apply C6_unit_direction.2 (mkRoom "Z") 5 ⟨"b2", "Q", ⟨0, 0, 0⟩, ⟨0, 0, 0⟩, "pistol"⟩
    rw [show dirLen ⟨0, 0, 0⟩ = 0 from by unfold dirLen; norm_num [Real.sqrt_zero]]
    norm_num

theorem findPlayer_updatePlayer_self (players : List GamePlayer) (pid : String)
    (f : GamePlayer → GamePlayer) (hid : ∀ p, (f p).id = p.id) :
    findPlayer (updatePlayer players pid f) pid = (findPlayer players pid).map f := by
  induction players with
  | nil => rfl
  | cons p rest ih =>
    simp only [updatePlayer, List.map_cons, findPlayer, List.find?]
    by_cases h : p.id = pid
    · have : ((f p).id == pid) = true := by
        rw [hid p]
        exact beq_iff_eq.mpr h
      rw [if_pos h]
      simp only [List.find?, this]
      have hp : (p.id == pid) = true := beq_iff_eq.mpr h
      simp [hp]
    · have : ((p).id == pid) = false := by
        simp [h]
      rw [if_neg h]
      simp only [List.find?, this]
      simpa [findPlayer, updatePlayer] using ih

theorem rate_batch_aux (subs : List (ℤ × BulletData)) (t : ℤ) (pid : String)
    (hall : ∀ s ∈ subs, s.2.playerId = pid ∧ t ≤ s.1 ∧ s.1 ≤ t + 50) :
    ∀ (room : GameRoom) (q : GamePlayer),
      findPlayer room.players pid = some q →
      countBF (runRoom room (subs.map fun s => RoomOp.handleBullet s.1 s.2)).2 +
        (if t ≤ q.lastShotTime then 1 else 0) ≤ 1 := by
  induction subs with
  | nil =>
    intro room q hq
    simp [runRoom, countBF]
    split_ifs <;> simp
  | cons s rest ih =>
    intro room q hq
    obtain ⟨hpid, hts, hst⟩ := hall s (List.mem_cons_self s rest)
    have hrest : ∀ s' ∈ rest, s'.2.playerId = pid ∧ t ≤ s'.1 ∧ s'.1 ≤ t + 50 :=
      fun s' hs' => hall s' (List.mem_cons_of_mem s hs')
    simp only [List.map_cons, runRoom, roomStep]
    have hq' : findPlayer room.players s.2.playerId = some q := by rw [hpid]; exact hq
    by_cases hrl : s.1 - q.lastShotTime < 100
    · rw [handleBullet_rateDropped hq' hrl]
      simpa [countBF] using ih hrest room q hq
    · have hlast : findPlayer (updatePlayer room.players pid
          fun x => { x with lastShotTime := s.1 }) pid =
          some { q with lastShotTime := s.1 } := by
        rw [findPlayer_updatePlayer_self room.players pid
          (fun x => { x with lastShotTime := s.1 }) (fun _ => rfl), hq]
        rfl
      by_cases hz : dirLen s.2.direction ≤ 1e-6
      · rw [handleBullet_zeroDir_present hq' hrl hz, hpid]
        have h2 := ih hrest { room with
            players := updatePlayer room.players pid
              fun x => { x with lastShotTime := s.1 } } _ hlast
        rw [if_pos (show t ≤ ({ q with lastShotTime := s.1 } : GamePlayer).lastShotTime
          from hts)] at h2
        have h3 : countBF (runRoom { room with
            players := updatePlayer room.players pid
              fun x => { x with lastShotTime := s.1 } }
            (rest.map fun s => RoomOp.handleBullet s.1 s.2)).2 = 0 := by omega
        rw [countBF_append, h3]
        simp only [countBF, List.countP_nil, Nat.zero_add, Nat.add_zero]
        split_ifs <;> norm_num
      · rw [handleBullet_accepted_present hq' hrl hz, hpid]
        have hqlt : ¬ t ≤ q.lastShotTime := by omega
        rw [if_neg hqlt]
        have h2 := ih hrest { room with
            players := updatePlayer room.players pid
              fun x => { x with lastShotTime := s.1 },
            bullets := setBullet room.bullets (acceptedBullet s.1 s.2) } _ hlast
        rw [if_pos (show t ≤ ({ q with lastShotTime := s.1 } : GamePlayer).lastShotTime
          from hts)] at h2
        have h3 : countBF (runRoom { room with
            players := updatePlayer room.players pid
              fun x => { x with lastShotTime := s.1 },
            bullets := setBullet room.bullets (acceptedBullet s.1 s.2) }
            (rest.map fun s => RoomOp.handleBullet s.1 s.2)).2 = 0 := by omega
        rw [countBF_append, h3]
        simp [countBF, isBF]

/-- C7: a `bullet_fired` submission arriving less than 100 ms after
the submitting player's last rate-accepted shot is silently dropped —
the room state and emissions are exactly unchanged — and any batch of
submissions by one player whose timestamps all lie in a 50 ms window
yields at most one stored/broadcast bullet. -/
theorem C7_rate_limit :
    (∀ (room : GameRoom) (now : ℤ) (bd : BulletData) (p : GamePlayer),
        findPlayer room.players bd.playerId = some p →
        now - p.lastShotTime < 100 →
        handleBullet room now bd = (room, [])) ∧
    (∀ (subs : List (ℤ × BulletData)) (t : ℤ) (pid : String) (room : GameRoom)
        (q : GamePlayer),
        (∀ s ∈ subs, s.2.playerId = pid ∧ t ≤ s.1 ∧ s.1 ≤ t + 50) →
        findPlayer room.players pid = some q →
        countBF (runRoom room (subs.map fun s => RoomOp.handleBullet s.1 s.2)).2 ≤ 1) := by
  refine ⟨fun room now bd p hp hlt => handleBullet_rateDropped hp hlt,
    fun subs t pid room q hall hq => ?_⟩
  have h := rate_batch_aux subs t pid hall room q hq
  split_ifs at h with hcond
  · omega
  · omega

/-- Witness for C7: a concrete 50 ms-spaced shot is dropped without
any state change, and a concrete burst of three submissions within
50 ms yields at most one bullet broadcast. -/
theorem C7_rate_limit_witness :
    handleBullet ⟨"r", [⟨"P", "P", ⟨0, 0, 0⟩, ⟨0, 0, 0⟩, 100, "c", 0, true, 0, .red⟩],
        [], ⟨0, 0⟩, 50, false, []⟩ 50 ⟨"b", "P", ⟨0, 0, 0⟩, ⟨0, 0, 1⟩, "rifle"⟩ =
      (⟨"r", [⟨"P", "P", ⟨0, 0, 0⟩, ⟨0, 0, 0⟩, 100, "c", 0, true, 0, .red⟩],
        [], ⟨0, 0⟩, 50, false, []⟩, []) ∧
    countBF (runRoom ⟨"r", [⟨"P", "P", ⟨0, 0, 0⟩, ⟨0, 0, 0⟩, 100, "c", 0, true, 0, .red⟩],
        [], ⟨0, 0⟩, 50, false, []⟩
      ([((1000 : ℤ), (⟨"b1", "P", ⟨0, 0, 0⟩, ⟨0, 0, 1⟩, "rifle"⟩ : BulletData)),
        (1010, ⟨"b2", "P", ⟨0, 0, 0⟩, ⟨0, 0, 1⟩, "rifle"⟩),
        (1020, ⟨"b3", "P", ⟨0, 0, 0⟩, ⟨0, 0, 1⟩, "rifle"⟩)].map
          fun s => RoomOp.handleBullet s.1 s.2)).2 ≤ 1 := by
  constructor
  · exact C7_rate_limit.1 _ 50 _ ⟨"P", "P", ⟨0, 0, 0⟩, ⟨0, 0, 0⟩, 100, "c", 0, true, 0, .red⟩
      rfl (by norm_num)
  · exact C7_rate_limit.2 _ 1000 "P" _ ⟨"P", "P", ⟨0, 0, 0⟩, ⟨0, 0, 0⟩, 100, "c", 0, true, 0, .red⟩
      (by intro s hs; fin_cases hs <;> norm_num) rfl

/-- C10: a shot submission from a player present in the player map
that passes the 100 ms rate check has the player's last-shot timestamp
updated before direction validation, so a submission then rejected for
a zero-length direction stores no bullet and emits nothing yet still
consumes the rate window, and a following submission by the same
player less than 100 ms later is dropped outright. -/
theorem C10_window_consumed (room : GameRoom) (t₁ t₂ : ℤ) (bd₁ bd₂ : BulletData)
    (p : GamePlayer) (hp : findPlayer room.players bd₁.playerId = some p)
    (hsame : bd₂.playerId = bd₁.playerId)
    (hrate : ¬ t₁ - p.lastShotTime < 100)
    (hzero : dirLen bd₁.direction ≤ 1e-6)
    (ht : t₂ - t₁ < 100) :
    (handleBullet room t₁ bd₁).1.bullets = room.bullets ∧
    (handleBullet room t₁ bd₁).2 = [] ∧
    findPlayer (handleBullet room t₁ bd₁).1.players bd₁.playerId =
      some { p with lastShotTime := t₁ } ∧
    handleBullet (handleBullet room t₁ bd₁).1 t₂ bd₂ = ((handleBullet room t₁ bd₁).1, []) := by
  rw [handleBullet_zeroDir_present hp hrate hzero]
  have hfind : findPlayer (updatePlayer room.players bd₁.playerId
      fun q => { q with lastShotTime := t₁ }) bd₁.playerId =
      some { p with lastShotTime := t₁ } := by
    rw [findPlayer_updatePlayer_self room.players bd₁.playerId
      (fun q => { q with lastShotTime := t₁ }) (fun _ => rfl), hp]
    rfl
  refine ⟨rfl, rfl, hfind, ?_⟩
  have hfind₂ : findPlayer ({ room with
      players := updatePlayer room.players bd₁.playerId
        fun q => { q with lastShotTime := t₁ } } : GameRoom).players bd₂.playerId =
      some { p with lastShotTime := t₁ } := by
    rw [hsame]
    exact hfind
  exact handleBullet_rateDropped hfind₂ ht

/-- Witness for C10 at a concrete room, a concrete zero-direction
shot at time 200 and a concrete follow-up at time 250. -/
theorem C10_window_consumed_witness :
    (handleBullet ⟨"r", [⟨"P", "P", ⟨0, 0, 0⟩, ⟨0, 0, 0⟩, 100, "c", 0, true, 0, .red⟩],
        [], ⟨0, 0⟩, 50, false, []⟩ 200 ⟨"b1", "P", ⟨1, 1, 1⟩, ⟨0, 0, 0⟩, "rifle"⟩).1.bullets =
      (⟨"r", [⟨"P", "P", ⟨0, 0, 0⟩, ⟨0, 0, 0⟩, 100, "c", 0, true, 0, .red⟩],
        [], ⟨0, 0⟩, 50, false, []⟩ : GameRoom).bullets ∧
    (handleBullet ⟨"r", [⟨"P", "P", ⟨0, 0, 0⟩, ⟨0, 0, 0⟩, 100, "c", 0, true, 0, .red⟩],
        [], ⟨0, 0⟩, 50, false, []⟩ 200 ⟨"b1", "P", ⟨1, 1, 1⟩, ⟨0, 0, 0⟩, "rifle"⟩).2 = [] ∧
    findPlayer (handleBullet ⟨"r", [⟨"P", "P", ⟨0, 0, 0⟩, ⟨0, 0, 0⟩, 100, "c", 0, true, 0, .red⟩],
        [], ⟨0, 0⟩, 50, false, []⟩ 200 ⟨"b1", "P", ⟨1, 1, 1⟩, ⟨0, 0, 0⟩, "rifle"⟩).1.players "P" =
      some ⟨"P", "P", ⟨0, 0, 0⟩, ⟨0, 0, 0⟩, 100, "c", 0, true, 200, .red⟩ ∧
    handleBullet (handleBullet ⟨"r", [⟨"P", "P", ⟨0, 0, 0⟩, ⟨0, 0, 0⟩, 100, "c", 0, true, 0, .red⟩],
        [], ⟨0, 0⟩, 50, false, []⟩ 200 ⟨"b1", "P", ⟨1, 1, 1⟩, ⟨0, 0, 0⟩, "rifle"⟩).1 250
        ⟨"b2", "P", ⟨1, 1, 1⟩, ⟨0, 0, 1⟩, "rifle"⟩ =
      ((handleBullet ⟨"r", [⟨"P", "P", ⟨0, 0, 0⟩, ⟨0, 0, 0⟩, 100, "c", 0, true, 0, .red⟩],
        [], ⟨0, 0⟩, 50, false, []⟩ 200 ⟨"b1", "P", ⟨1, 1, 1⟩, ⟨0, 0, 0⟩, "rifle"⟩).1, []) :=
  C10_window_consumed _ 200 250 _ ⟨"b2", "P", ⟨1, 1, 1⟩, ⟨0, 0, 1⟩, "rifle"⟩
    ⟨"P", "P", ⟨0, 0, 0⟩, ⟨0, 0, 0⟩, 100, "c", 0, true, 0, .red⟩ rfl rfl (by norm_num)
    (by rw [show dirLen ⟨0, 0, 0⟩ = 0 from by unfold dirLen; norm_num [Real.sqrt_zero]]
        norm_num)
    (by norm_num)

/-! ### Respawn scheduling -/

theorem checkForVictory_no_elim (players : List GamePlayer) (scores : TeamScores)
    (limit : ℕ) (ended : Bool) (vid vn kid kn w : String) :
    Emit.bcast none (.playerEliminated vid vn kid kn w) ∉
      (checkForVictory players scores limit ended).2.2 := by
  unfold checkForVictory
  split_ifs <;> simp

theorem applyHit_pendingOK (now : ℤ) (limit : ℕ) (st : TickState) (b : Bullet)
    (victim : GamePlayer) :
    ((applyHit now limit st b victim).pending =
        st.pending ++ [(victim.id, now + 3000, false)] ∨
     (applyHit now limit st b victim).pending = st.pending) ∧
    (∀ vid vn kid kn w,
       Emit.bcast none (.playerEliminated vid vn kid kn w) ∈ (applyHit now limit st b victim).emits →
       Emit.bcast none (.playerEliminated vid vn kid kn w) ∈ st.emits ∨
       (vid, now + 3000, false) ∈ (applyHit now limit st b victim).pending) := by
  unfold applyHit
  by_cases hdead : victim.health - effectiveDamage b ≤ 0
  · simp only [hdead, if_true]
    cases hsh : findPlayer (updatePlayer
        (updatePlayer st.players victim.id fun p => { p with health := p.health - effectiveDamage b })
        victim.id fun p => { p with isAlive := false }) b.playerId with
    | none =>
      refine ⟨Or.inl trivial, ?_⟩
      intro vid vn kid kn w hmem
      simp only [List.mem_append] at hmem
      rcases hmem with ((hmem | hmem) | hmem) | hmem
      · exact Or.inl hmem
      · simp at hmem
      · simp at hmem
      · have h := List.mem_singleton.mp hmem
        injection h with h1 h2
        injection h2 with hv
        right
        rw [hv]
        exact List.mem_append_right _ (List.mem_singleton.mpr rfl)
    | some s =>
      by_cases hteam : s.team = victim.team
      · simp only [hsh, hteam, not_true_eq_false, if_neg, ite_false]
        refine ⟨Or.inl trivial, ?_⟩
        intro vid vn kid kn w hmem
        simp only [List.mem_append] at hmem
        rcases hmem with ((hmem | hmem) | hmem) | hmem
        · exact Or.inl hmem
        · simp at hmem
        · simp at hmem
        · have h := List.mem_singleton.mp hmem
          injection h with h1 h2
          injection h2 with hv
          right
          rw [hv]
          exact List.mem_append_right _ (List.mem_singleton.mpr rfl)
      · cases hendb : st.gameEnded with
        | true =>
          simp only [hsh, hteam, hendb, not_false_eq_true, ite_true, Bool.true_eq_false,
            if_false, ite_false]
          refine ⟨Or.inl trivial, ?_⟩
          intro vid vn kid kn w hmem
          simp only [List.mem_append] at hmem
          rcases hmem with ((hmem | hmem) | hmem) | hmem
          · exact Or.inl hmem
          · simp at hmem
          · simp at hmem
          · have h := List.mem_singleton.mp hmem
            injection h with h1 h2
            injection h2 with hv
            right
            rw [hv]
            exact List.mem_append_right _ (List.mem_singleton.mpr rfl)
        | false =>
          simp only [hsh, hteam, hendb, not_false_eq_true, ite_true]
          refine ⟨Or.inl trivial, ?_⟩
          intro vid vn kid kn w hmem
          simp only [List.mem_append] at hmem
          rcases hmem with ((hmem | hmem) | (hmem | hmem)) | hmem
          · exact Or.inl hmem
          · simp at hmem
          · simp at hmem
          · exact absurd hmem (checkForVictory_no_elim _ _ _ _ vid vn kid kn w)
          · have h := List.mem_singleton.mp hmem
            injection h with h1 h2
            injection h2 with hv
            right
            rw [hv]
            exact List.mem_append_right _ (List.mem_singleton.mpr rfl)
  · simp only [hdead, if_false]
    refine ⟨Or.inr trivial, ?_⟩
    intro vid vn kid kn w hmem
    simp only [List.mem_append] at hmem
    rcases hmem with hmem | hmem
    · exact Or.inl hmem
    · simp at hmem

theorem processBullet_pendingOK (now : ℤ) (limit : ℕ) (st : TickState) (b : Bullet) :
    (∀ e ∈ (processBullet now limit st b).1.pending,
        e ∈ st.pending ∨ e.2.1 = now + 3000) ∧
    (∀ e ∈ st.pending, e ∈ (processBullet now limit st b).1.pending) ∧
    (∀ vid vn kid kn w,
       Emit.bcast none (.playerEliminated vid vn kid kn w) ∈ (processBullet now limit st b).1.emits →
       Emit.bcast none (.playerEliminated vid vn kid kn w) ∈ st.emits ∨
       (vid, now + 3000, false) ∈ (processBullet now limit st b).1.pending) := by
  unfold processBullet
  by_cases hexp : now - b.startTime > 3000
  · simp only [hexp, if_true]
    exact ⟨fun e he => Or.inl he, fun e he => he, fun vid vn kid kn w h => Or.inl h⟩
  · simp only [hexp, if_false]
    cases hft : findHitTarget st.players (advanceBullet now b) with
    | none =>
      simp only [hft]
      exact ⟨fun e he => Or.inl he, fun e he => he, fun vid vn kid kn w h => Or.inl h⟩
    | some victim =>
      simp only [hft]
      obtain ⟨hp, hm⟩ := applyHit_pendingOK now limit st (advanceBullet now b) victim
      refine ⟨?_, ?_, hm⟩
      · intro e he
        rcases hp with hp | hp <;> rw [hp] at he
        · rcases List.mem_append.mp he with he | he
          · exact Or.inl he
          · right
            simp only [List.mem_singleton] at he
            rw [he]
        · exact Or.inl he
      · intro e he
        rcases hp with hp | hp <;> rw [hp]
        · exact List.mem_append_left _ he
        · exact he

theorem foldlBullets_pendingOK (now : ℤ) (limit : ℕ) (bs : List Bullet)
    (acc : TickState × List Bullet) :
    (∀ e ∈ (bs.foldl (fun (a : TickState × List Bullet) b =>
        let r := processBullet now limit a.1 b
        (r.1, a.2 ++ [r.2])) acc).1.pending,
       e ∈ acc.1.pending ∨ e.2.1 = now + 3000) ∧
    (∀ e ∈ acc.1.pending, e ∈ (bs.foldl (fun (a : TickState × List Bullet) b =>
        let r := processBullet now limit a.1 b
        (r.1, a.2 ++ [r.2])) acc).1.pending) ∧
    (∀ vid vn kid kn w,
       Emit.bcast none (.playerEliminated vid vn kid kn w) ∈ (bs.foldl
        (fun (a : TickState × List Bullet) b =>
          let r := processBullet now limit a.1 b
          (r.1, a.2 ++ [r.2])) acc).1.emits →
       Emit.bcast none (.playerEliminated vid vn kid kn w) ∈ acc.1.emits ∨
       (vid, now + 3000, false) ∈ (bs.foldl (fun (a : TickState × List Bullet) b =>
          let r := processBullet now limit a.1 b
          (r.1, a.2 ++ [r.2])) acc).1.pending) := by
  induction bs generalizing acc with
  | nil =>
    exact ⟨fun e he => Or.inl he, fun e he => he, fun vid vn kid kn w h => Or.inl h⟩
  | cons b rest ih =>
    simp only [List.foldl_cons]
    obtain ⟨h1, h2, h3⟩ := processBullet_pendingOK now limit acc.1 b
    obtain ⟨g1, g2, g3⟩ := ih ((processBullet now limit acc.1 b).1,
      acc.2 ++ [(processBullet now limit acc.1 b).2])
    refine ⟨?_, ?_, ?_⟩
    · intro e he
      rcases g1 e he with hg | hg
      · exact h1 e hg
      · exact Or.inr hg
    · intro e he
      exact g2 e (h2 e he)
    · intro vid vn kid kn w h
      rcases g3 vid vn kid kn w h with hg | hg
      · rcases h3 vid vn kid kn w hg with hh | hh
        · exact Or.inl hh
        · exact Or.inr (g2 _ hh)
      · exact Or.inr hg

theorem updateBullets_pendingOK (now : ℤ) (room : GameRoom) :
    (∀ e ∈ (updateBullets now room).1.pendingRespawns,
        e ∈ room.pendingRespawns ∨ e.2.1 = now + 3000) ∧
    (∀ vid vn kid kn w,
       Emit.bcast none (.playerEliminated vid vn kid kn w) ∈ (updateBullets now room).2 →
       (vid, now + 3000, false) ∈ (updateBullets now room).1.pendingRespawns) := by
  obtain ⟨h1, h2, h3⟩ := foldlBullets_pendingOK now room.scoreLimit room.bullets
    (⟨room.players, room.teamScores, room.gameEnded, room.pendingRespawns, [], []⟩, [])
  constructor
  · intro e he
    exact h1 e he
  · intro vid vn kid kn w h
    rcases h3 vid vn kid kn w h with hg | hg
    · simp at hg
    · exact hg

theorem fireRespawn_fresh {room : GameRoom} {pid : String} {due : ℤ} {k : ℕ}
    {p : GamePlayer} (hp : findPlayer room.players pid = some p)
    (hst : findPending room.pendingRespawns pid due = some false) :
    fireRespawn room pid due k =
      ({ room with
          pendingRespawns := removeFirstPending room.pendingRespawns pid due,
          players := updatePlayer room.players pid (fun q =>
            { q with health := 100, isAlive := true, position := getRandomSpawnPoint k }) },
       [.bcast none (.playerRespawned pid (getRandomSpawnPoint k))]) := by
  simp [fireRespawn, hp, hst]

theorem fireRespawn_stale {room : GameRoom} {pid : String} {due : ℤ} {k : ℕ}
    {p : GamePlayer} (hp : findPlayer room.players pid = some p)
    (hst : findPending room.pendingRespawns pid due = some true) :
    fireRespawn room pid due k =
      ({ room with
          pendingRespawns := removeFirstPending room.pendingRespawns pid due },
       [.bcast none (.playerRespawned pid (getRandomSpawnPoint k))]) := by
  simp [fireRespawn, hp, hst]

theorem fireRespawn_absent {room : GameRoom} {pid : String} {due : ℤ} {k : ℕ}
    (hp : findPlayer room.players pid = none) :
    fireRespawn room pid due k =
      ({ room with
          pendingRespawns := removeFirstPending room.pendingRespawns pid due }, []) := by
  simp [fireRespawn, hp]

theorem markStale_mem_stale (l : List (String × ℤ × Bool)) (pid : String) :
    ∀ e ∈ markStale l pid, e.1 = pid → e.2.2 = true := by
  intro e he hid
  unfold markStale at he
  obtain ⟨e₀, he₀, heq⟩ := List.mem_map.mp he
  by_cases h : e₀.1 = pid
  · rw [if_pos h] at heq
    rw [← heq]
  · rw [if_neg h] at heq
    rw [← heq] at hid
    exact absurd hid h

theorem getRandomSpawnPoint_mem (k : ℕ) : getRandomSpawnPoint k ∈ getSpawnPoints := by
  unfold getRandomSpawnPoint
  have hlen : getSpawnPoints.length = 10 := by simp [getSpawnPoints]
  have h : k % getSpawnPoints.length < getSpawnPoints.length := by
    rw [hlen]
    exact Nat.mod_lt _ (by norm_num)
  rw [List.getD_eq_getElem _ _ h]
  exact List.getElem_mem _

/-- C8 (amended): an elimination during a tick always schedules a
respawn entry for the victim due exactly 3000 ms later, capturing the
victim's current player-map object (flag `false`); a timer may only
fire once its due time has been reached.  The `setTimeout` callback
only checks that the player id is still in the map, then mutates the
object captured at elimination: if that object is still the map entry
(no re-join has replaced it), firing resets the member's health to
exactly 100, sets alive, assigns a position drawn from the fixed
spawn-point list, and broadcasts `player_respawned`; if the id is
present but `addPlayer` has replaced the entry in the interim (a
same-room re-join — addPlayer marks every outstanding timer of that id
stale), the member entry's health, alive flag and position are left
untouched although `player_respawned` is still broadcast; if the id
has left the room, the respawn is a complete no-op. -/
theorem C8_respawn_amended :
    (∀ (room : GameRoom) (now : ℤ) (e : String × ℤ × Bool),
        e ∈ (updateBullets now room).1.pendingRespawns →
        e ∈ room.pendingRespawns ∨ e.2.1 = now + 3000) ∧
    (∀ (room : GameRoom) (now : ℤ) (vid vn kid kn w : String),
        Emit.bcast none (.playerEliminated vid vn kid kn w) ∈ (updateBullets now room).2 →
        (vid, now + 3000, false) ∈ (updateBullets now room).1.pendingRespawns) ∧
    (∀ (room : GameRoom) (pid : String) (due now : ℤ) (k : ℕ),
        WFRoomOp room (.fireRespawn pid due now k) →
        (∃ st, (pid, due, st) ∈ room.pendingRespawns) ∧ due ≤ now) ∧
    (∀ (room : GameRoom) (pid : String) (due : ℤ) (k : ℕ) (p : GamePlayer),
        findPlayer room.players pid = some p →
        findPending room.pendingRespawns pid due = some false →
        ∃ q, findPlayer (fireRespawn room pid due k).1.players pid = some q ∧
          q.health = 100 ∧ q.isAlive = true ∧ q.position ∈ getSpawnPoints ∧
          (fireRespawn room pid due k).2 = [.bcast none (.playerRespawned pid q.position)]) ∧
    (∀ (room : GameRoom) (pid : String) (due : ℤ) (k : ℕ) (p : GamePlayer),
        findPlayer room.players pid = some p →
        findPending room.pendingRespawns pid due = some true →
        (fireRespawn room pid due k).1.players = room.players ∧
        (fireRespawn room pid due k).2 =
          [.bcast none (.playerRespawned pid (getRandomSpawnPoint k))]) ∧
    (∀ (room : GameRoom) (pid : String) (due : ℤ) (k : ℕ),
        findPlayer room.players pid = none →
        (fireRespawn room pid due k).1.players = room.players ∧
        (fireRespawn room pid due k).1.bullets = room.bullets ∧
        (fireRespawn room pid due k).1.teamScores = room.teamScores ∧
        (fireRespawn room pid due k).2 = []) ∧
    (∀ (room : GameRoom) (pd : PlayerData) (e : String × ℤ × Bool),
        e ∈ (addPlayer room pd).1.pendingRespawns → e.1 = pd.id → e.2.2 = true) := by
  refine ⟨fun room now e he => (updateBullets_pendingOK now room).1 e he,
    fun room now vid vn kid kn w h => (updateBullets_pendingOK now room).2 vid vn kid kn w h,
    fun room pid due now k hwf => hwf, fun room pid due k p hp hst => ?_,
    fun room pid due k p hp hst => ?_, fun room pid due k hp => ?_,
    fun room pd e he hid => ?_⟩
  · rw [fireRespawn_fresh hp hst]
    refine ⟨{ p with health := 100, isAlive := true, position := getRandomSpawnPoint k }, ?_,
      rfl, rfl, getRandomSpawnPoint_mem k, rfl⟩
    rw [show ({ room with
        pendingRespawns := removeFirstPending room.pendingRespawns pid due,
        players := updatePlayer room.players pid (fun q =>
          { q with health := 100, isAlive := true, position := getRandomSpawnPoint k }) } :
        GameRoom).players = updatePlayer room.players pid (fun q =>
          { q with health := 100, isAlive := true, position := getRandomSpawnPoint k }) from rfl]
    rw [findPlayer_updatePlayer_self room.players pid
      (fun q => { q with health := 100, isAlive := true, position := getRandomSpawnPoint k })
      (fun _ => rfl), hp]
    rfl
  · rw [fireRespawn_stale hp hst]
    exact ⟨rfl, rfl⟩
  · rw [fireRespawn_absent hp]
    exact ⟨rfl, rfl, rfl, rfl⟩
  · have he' : e ∈ markStale room.pendingRespawns pd.id := he
    exact markStale_mem_stale room.pendingRespawns pd.id e he' hid

/-- Witness for C8 (amended): firing a due timer whose captured object
is still the map entry restores exactly 100 health; firing a stale one
(entry replaced by a re-join) leaves the member untouched yet still
broadcasts; firing one for a departed player is a no-op. -/
theorem C8_respawn_amended_witness :
    (∃ q, findPlayer (fireRespawn ⟨"r",
        [⟨"P", "P", ⟨0, 0, 0⟩, ⟨0, 0, 0⟩, 0, "c", 0, false, 0, .red⟩], [], ⟨0, 0⟩, 50, false,
        [("P", 4000, false)]⟩ "P" 4000 3).1.players "P" = some q ∧
      q.health = 100 ∧ q.isAlive = true ∧ q.position ∈ getSpawnPoints ∧
      (fireRespawn ⟨"r", [⟨"P", "P", ⟨0, 0, 0⟩, ⟨0, 0, 0⟩, 0, "c", 0, false, 0, .red⟩],
        [], ⟨0, 0⟩, 50, false, [("P", 4000, false)]⟩ "P" 4000 3).2 =
        [.bcast none (.playerRespawned "P" q.position)]) ∧
    ((fireRespawn ⟨"r", [⟨"P", "P", ⟨0, 0, 0⟩, ⟨0, 0, 0⟩, 40, "c", 0, true, 0, .red⟩],
        [], ⟨0, 0⟩, 50, false, [("P", 4000, true)]⟩ "P" 4000 0).1.players =
        [⟨"P", "P", ⟨0, 0, 0⟩, ⟨0, 0, 0⟩, 40, "c", 0, true, 0, .red⟩] ∧
     (fireRespawn ⟨"r", [⟨"P", "P", ⟨0, 0, 0⟩, ⟨0, 0, 0⟩, 40, "c", 0, true, 0, .red⟩],
        [], ⟨0, 0⟩, 50, false, [("P", 4000, true)]⟩ "P" 4000 0).2 =
        [.bcast none (.playerRespawned "P" (getRandomSpawnPoint 0))]) ∧
    ((fireRespawn ⟨"r", [], [], ⟨0, 0⟩, 50, false, [("Q", 4000, false)]⟩ "Q" 4000 0).1.players
        = [] ∧
     (fireRespawn ⟨"r", [], [], ⟨0, 0⟩, 50, false, [("Q", 4000, false)]⟩ "Q" 4000 0).2 = []) := by
  refine ⟨?_, ?_, ?_⟩
  · exact C8_respawn_amended.2.2.2.1 _ "P" 4000 3
      ⟨"P", "P", ⟨0, 0, 0⟩, ⟨0, 0, 0⟩, 0, "c", 0, false, 0, .red⟩ rfl rfl
  · exact C8_respawn_amended.2.2.2.2.1 _ "P" 4000 0
      ⟨"P", "P", ⟨0, 0, 0⟩, ⟨0, 0, 0⟩, 40, "c", 0, true, 0, .red⟩ rfl rfl
  · have h := C8_respawn_amended.2.2.2.2.2.1
      ⟨"r", [], [], ⟨0, 0⟩, 50, false, [("Q", 4000, false)]⟩ "Q" 4000 0 rfl
    exact ⟨h.1, h.2.2.2⟩

/-- Counterexample to C8 as stated: player P is eliminated (timer
scheduled, flag fresh), then re-joins the same room within the delay —
`addPlayer` replaces the map entry with a fresh object carrying the
client-supplied health 40 and orphans the timer.  When the timer
fires, P is still a member, yet the member entry keeps health 40
(never reset to 100) and its position, while `player_respawned` is
still broadcast. -/
theorem C8_stale_respawn_counterexample :
    findPending (addPlayer ⟨"r",
        [⟨"P", "P", ⟨0, 0, 0⟩, ⟨0, 0, 0⟩, 0, "c", 0, false, 0, .red⟩], [], ⟨0, 0⟩, 50, false,
        [("P", 4000, false)]⟩ ⟨"P", "P", ⟨0, 0, 0⟩, ⟨0, 0, 0⟩, 40⟩).1.pendingRespawns
      "P" 4000 = some true ∧
    ((findPlayer (addPlayer ⟨"r",
        [⟨"P", "P", ⟨0, 0, 0⟩, ⟨0, 0, 0⟩, 0, "c", 0, false, 0, .red⟩], [], ⟨0, 0⟩, 50, false,
        [("P", 4000, false)]⟩ ⟨"P", "P", ⟨0, 0, 0⟩, ⟨0, 0, 0⟩, 40⟩).1.players "P").map
      (fun q => (q.health, q.isAlive)) = some (40, true)) ∧
    (fireRespawn (addPlayer ⟨"r",
        [⟨"P", "P", ⟨0, 0, 0⟩, ⟨0, 0, 0⟩, 0, "c", 0, false, 0, .red⟩], [], ⟨0, 0⟩, 50, false,
        [("P", 4000, false)]⟩ ⟨"P", "P", ⟨0, 0, 0⟩, ⟨0, 0, 0⟩, 40⟩).1 "P" 4000 0).1.players =
      (addPlayer ⟨"r",
        [⟨"P", "P", ⟨0, 0, 0⟩, ⟨0, 0, 0⟩, 0, "c", 0, false, 0, .red⟩], [], ⟨0, 0⟩, 50, false,
        [("P", 4000, false)]⟩ ⟨"P", "P", ⟨0, 0, 0⟩, ⟨0, 0, 0⟩, 40⟩).1.players ∧
    ((findPlayer (fireRespawn (addPlayer ⟨"r",
        [⟨"P", "P", ⟨0, 0, 0⟩, ⟨0, 0, 0⟩, 0, "c", 0, false, 0, .red⟩], [], ⟨0, 0⟩, 50, false,
        [("P", 4000, false)]⟩ ⟨"P", "P", ⟨0, 0, 0⟩, ⟨0, 0, 0⟩, 40⟩).1 "P" 4000 0).1.players
      "P").map (fun q => q.health) = some 40) ∧
    (fireRespawn (addPlayer ⟨"r",
        [⟨"P", "P", ⟨0, 0, 0⟩, ⟨0, 0, 0⟩, 0, "c", 0, false, 0, .red⟩], [], ⟨0, 0⟩, 50, false,
        [("P", 4000, false)]⟩ ⟨"P", "P", ⟨0, 0, 0⟩, ⟨0, 0, 0⟩, 40⟩).1 "P" 4000 0).2 =
      [.bcast none (.playerRespawned "P" (getRandomSpawnPoint 0))] := by
  exact ⟨rfl, rfl, rfl, rfl, rfl⟩

/-! ### Hit attribution: no self-hits, friendly fire and the red fallback -/

theorem ids_eq_of_roster {l₁ l₂ : List GamePlayer} (h : roster l₁ = roster l₂) :
    l₁.map (fun p => p.id) = l₂.map (fun p => p.id) := by
  have h1 : (roster l₁).map Prod.fst = (roster l₂).map Prod.fst := by rw [h]
  simpa [roster, List.map_map, Function.comp] using h1

theorem roster_updatePlayer (l : List GamePlayer) (pid : String)
    (f : GamePlayer → GamePlayer) (hid : ∀ p, (f p).id = p.id)
    (hteam : ∀ p, (f p).team = p.team) :
    roster (updatePlayer l pid f) = roster l := by
  induction l with
  | nil => rfl
  | cons p rest ih =>
    simp only [roster, updatePlayer, List.map_cons] at ih ⊢
    by_cases h : p.id = pid
    · rw [if_pos h, hid p, hteam p, ih]
    · rw [if_neg h, ih]

theorem roster_map_preserve (l : List GamePlayer) (g : GamePlayer → GamePlayer)
    (hg : ∀ p, (g p).id = p.id ∧ (g p).team = p.team) :
    roster (l.map g) = roster l := by
  induction l with
  | nil => rfl
  | cons p rest ih =>
    simp only [roster, List.map_cons] at ih ⊢
    rw [(hg p).1, (hg p).2, ih]

theorem roster_checkForVictory (players : List GamePlayer) (scores : TeamScores)
    (limit : ℕ) (ended : Bool) :
    roster (checkForVictory players scores limit ended).1 = roster players := by
  unfold checkForVictory
  split_ifs with h1 h2 h3
  · rfl
  · exact roster_map_preserve players _ (fun p => by by_cases h : p.team = Team.red <;> simp [h])
  · exact roster_map_preserve players _ (fun p => by by_cases h : p.team = Team.blue <;> simp [h])
  · rfl

theorem teamOfId_roster_eq {l₁ l₂ : List GamePlayer} (h : roster l₁ = roster l₂)
    (pid : String) : teamOfId l₁ pid = teamOfId l₂ pid := by
  induction l₁ generalizing l₂ with
  | nil =>
    cases l₂ with
    | nil => rfl
    | cons q rest => simp [roster] at h
  | cons p rest ih =>
    cases l₂ with
    | nil => simp [roster] at h
    | cons q rest₂ =>
      simp only [roster, List.map_cons, List.cons.injEq, Prod.mk.injEq] at h
      obtain ⟨⟨hid, hteam⟩, htail⟩ := h
      simp only [teamOfId, findPlayer, List.find?]
      by_cases hp : p.id = pid
      · have h1 : (p.id == pid) = true := beq_iff_eq.mpr hp
        have h2 : (q.id == pid) = true := beq_iff_eq.mpr (hid ▸ hp)
        rw [h1, h2]
        simp [hteam]
      · have h1 : (p.id == pid) = false := by simp [hp]
        have h2 : (q.id == pid) = false := by
          simp only [beq_eq_false_iff_ne, ne_eq]
          rw [← hid]
          exact hp
        rw [h1, h2]
        exact ih (by simpa [roster] using htail)

theorem shooterTeamOf_teamOfId (players : List GamePlayer) (b : Bullet) :
    shooterTeamOf players b = (teamOfId players b.playerId).getD .red := by
  unfold shooterTeamOf teamOfId
  cases h : findPlayer players b.playerId <;> simp [h]

theorem findPlayer_of_mem_nodup {l : List GamePlayer} {p : GamePlayer}
    (hnd : (l.map (fun q => q.id)).Nodup) (hp : p ∈ l) :
    findPlayer l p.id = some p := by
  induction l with
  | nil => simp at hp
  | cons q rest ih =>
    simp only [List.map_cons, List.nodup_cons] at hnd
    rcases List.mem_cons.mp hp with hq | hp'
    · subst hq
      unfold findPlayer
      rw [List.find?_cons_of_pos _ (by simp)]
    · have hne : ¬ (q.id = p.id) := by
        intro he
        exact hnd.1 (he ▸ List.mem_map_of_mem (fun x => x.id) hp')
      unfold findPlayer
      rw [List.find?_cons_of_neg _ (by simp [hne])]
      exact ih hnd.2 hp'

theorem findHitTarget_spec {players : List GamePlayer} {b : Bullet}
    {victim : GamePlayer} (h : findHitTarget players b = some victim) :
    victim ∈ players ∧ hitPred players b victim := by
  unfold findHitTarget at h
  refine ⟨List.mem_of_find?_eq_some h, ?_⟩
  have h2 := List.find?_some h
  simpa using h2

theorem checkForVictory_no_hit (players : List GamePlayer) (scores : TeamScores)
    (limit : ℕ) (ended : Bool) (vid : String) (dmg : ℚ) (w bid : String) :
    Emit.bcast none (.playerHit vid dmg w bid) ∉
      (checkForVictory players scores limit ended).2.2 := by
  unfold checkForVictory
  split_ifs <;> simp

theorem applyHit_roster (now : ℤ) (limit : ℕ) (st : TickState) (b : Bullet)
    (victim : GamePlayer) :
    roster (applyHit now limit st b victim).players = roster st.players := by
  have hupd : ∀ (l : List GamePlayer) (pid : String) (f : GamePlayer → GamePlayer),
      (∀ p, (f p).id = p.id) → (∀ p, (f p).team = p.team) →
      roster (updatePlayer l pid f) = roster l := roster_updatePlayer
  unfold applyHit
  by_cases hdead : victim.health - effectiveDamage b ≤ 0
  · simp only [hdead, if_true]
    cases hsh : findPlayer (updatePlayer
        (updatePlayer st.players victim.id fun p => { p with health := p.health - effectiveDamage b })
        victim.id fun p => { p with isAlive := false }) b.playerId with
    | none =>
      simp only [hsh]
      rw [hupd _ _ (fun p => { p with isAlive := false }) (fun _ => rfl) (fun _ => rfl),
        hupd _ _ (fun p => { p with health := p.health - effectiveDamage b })
          (fun _ => rfl) (fun _ => rfl)]
    | some s =>
      by_cases hteam : s.team = victim.team
      · simp only [hsh, hteam, not_true_eq_false, if_neg, ite_false]
        rw [hupd _ _ (fun p => { p with isAlive := false }) (fun _ => rfl) (fun _ => rfl),
          hupd _ _ (fun p => { p with health := p.health - effectiveDamage b })
            (fun _ => rfl) (fun _ => rfl)]
      · cases hendb : st.gameEnded with
        | true =>
          simp only [hsh, hteam, hendb, not_false_eq_true, ite_true, Bool.true_eq_false,
            if_false, ite_false]
          rw [hupd _ _ (fun p => { p with isAlive := false }) (fun _ => rfl) (fun _ => rfl),
            hupd _ _ (fun p => { p with health := p.health - effectiveDamage b })
              (fun _ => rfl) (fun _ => rfl)]
        | false =>
          simp only [hsh, hteam, hendb, not_false_eq_true, ite_true]
          rw [roster_checkForVictory,
            hupd _ _ (fun p => { p with score := p.score + 100 }) (fun _ => rfl) (fun _ => rfl),
            hupd _ _ (fun p => { p with isAlive := false }) (fun _ => rfl) (fun _ => rfl),
            hupd _ _ (fun p => { p with health := p.health - effectiveDamage b })
              (fun _ => rfl) (fun _ => rfl)]
  · simp only [hdead, if_false]
    exact hupd _ _ (fun p => { p with health := p.health - effectiveDamage b })
      (fun _ => rfl) (fun _ => rfl)

theorem applyHit_hitEmits (now : ℤ) (limit : ℕ) (st : TickState) (b : Bullet)
    (victim : GamePlayer) :
    ∀ e ∈ (applyHit now limit st b victim).emits,
      e ∈ st.emits ∨ (∀ vid dmg w bid, e = Emit.bcast none (.playerHit vid dmg w bid) →
        vid = victim.id ∧ bid = b.id) := by
  unfold applyHit
  by_cases hdead : victim.health - effectiveDamage b ≤ 0
  · simp only [hdead, if_true]
    cases hsh : findPlayer (updatePlayer
        (updatePlayer st.players victim.id fun p => { p with health := p.health - effectiveDamage b })
        victim.id fun p => { p with isAlive := false }) b.playerId with
    | none =>
      intro e he
      simp only [List.mem_append] at he
      rcases he with ((he | he) | he) | he
      · exact Or.inl he
      · right
        intro vid dmg w bid heq
        rw [heq] at he
        have := List.mem_singleton.mp he
        injection this with h1 h2
        injection h2 with hv hd hw hb
        exact ⟨hv, hb⟩
      · simp at he
      · right
        intro vid dmg w bid heq
        rw [heq] at he
        simp at he
    | some s =>
      by_cases hteam : s.team = victim.team
      · simp only [hsh, hteam, not_true_eq_false, if_neg, ite_false]
        intro e he
        simp only [List.mem_append] at he
        rcases he with ((he | he) | he) | he
        · exact Or.inl he
        · right
          intro vid dmg w bid heq
          rw [heq] at he
          have := List.mem_singleton.mp he
          injection this with h1 h2
          injection h2 with hv hd hw hb
          exact ⟨hv, hb⟩
        · simp at he
        · right
          intro vid dmg w bid heq
          rw [heq] at he
          simp at he
      · cases hendb : st.gameEnded with
        | true =>
          simp only [hsh, hteam, hendb, not_false_eq_true, ite_true, Bool.true_eq_false,
            if_false, ite_false]
          intro e he
          simp only [List.mem_append] at he
          rcases he with ((he | he) | he) | he
          · exact Or.inl he
          · right
            intro vid dmg w bid heq
            rw [heq] at he
            have := List.mem_singleton.mp he
            injection this with h1 h2
            injection h2 with hv hd hw hb
            exact ⟨hv, hb⟩
          · simp at he
          · right
            intro vid dmg w bid heq
            rw [heq] at he
            simp at he
        | false =>
          simp only [hsh, hteam, hendb, not_false_eq_true, ite_true]
          intro e he
          simp only [List.mem_append] at he
          rcases he with ((he | he) | (he | he)) | he
          · exact Or.inl he
          · right
            intro vid dmg w bid heq
            rw [heq] at he
            have := List.mem_singleton.mp he
            injection this with h1 h2
            injection h2 with hv hd hw hb
            exact ⟨hv, hb⟩
          · right
            intro vid dmg w bid heq
            rw [heq] at he
            simp at he
          · right
            intro vid dmg w bid heq
            rw [heq] at he
            exact absurd he (checkForVictory_no_hit _ _ _ _ vid dmg w bid)
          · right
            intro vid dmg w bid heq
            rw [heq] at he
            simp at he
  · simp only [hdead, if_false]
    intro e he
    simp only [List.mem_append] at he
    rcases he with he | he
    · exact Or.inl he
    · right
      intro vid dmg w bid heq
      rw [heq] at he
      have := List.mem_singleton.mp he
      injection this with h1 h2
      injection h2 with hv hd hw hb
      exact ⟨hv, hb⟩

theorem processBullet_hitOK (now : ℤ) (limit : ℕ) (st : TickState) (b : Bullet)
    (room : GameRoom) (hb : b ∈ room.bullets)
    (hr : roster st.players = roster room.players)
    (hnd : (room.players.map (fun p => p.id)).Nodup) :
    roster (processBullet now limit st b).1.players = roster room.players ∧
    (∀ e ∈ (processBullet now limit st b).1.emits,
      e ∈ st.emits ∨ (∀ vid dmg w bid, e = Emit.bcast none (.playerHit vid dmg w bid) →
        ∃ b₀ ∈ room.bullets, b₀.id = bid ∧ ¬ (vid = b₀.playerId) ∧
          ∃ tv, teamOfId room.players vid = some tv ∧
            ¬ (tv = (teamOfId room.players b₀.playerId).getD .red))) := by
  unfold processBullet
  by_cases hexp : now - b.startTime > 3000
  · simp only [hexp, if_true]
    exact ⟨hr, fun e he => Or.inl he⟩
  · simp only [hexp, if_false]
    cases hft : findHitTarget st.players (advanceBullet now b) with
    | none =>
      simp only [hft]
      exact ⟨hr, fun e he => Or.inl he⟩
    | some victim =>
      simp only [hft]
      obtain ⟨hvm, hp1, hp2, hp3, _⟩ := findHitTarget_spec hft
      refine ⟨(applyHit_roster now limit st (advanceBullet now b) victim).trans hr, ?_⟩
      intro e he
      rcases applyHit_hitEmits now limit st (advanceBullet now b) victim e he with hin | hnew
      · exact Or.inl hin
      · right
        intro vid dmg w bid heq
        obtain ⟨hvid, hbid⟩ := hnew vid dmg w bid heq
        refine ⟨b, hb, ?_, ?_, victim.team, ?_, ?_⟩
        · exact hbid.symm
        · rw [hvid]
          exact hp1
        · have hndst : (st.players.map (fun p => p.id)).Nodup := by
            rw [ids_eq_of_roster hr]
            exact hnd
          have hfind := findPlayer_of_mem_nodup hndst hvm
          have : teamOfId st.players victim.id = some victim.team := by
            simp [teamOfId, hfind]
          rw [hvid, ← teamOfId_roster_eq hr]
          exact this
        · intro htv
          apply hp3
          rw [shooterTeamOf_teamOfId, show (advanceBullet now b).playerId = b.playerId from rfl,
            teamOfId_roster_eq hr]
          exact htv.symm

theorem foldlBullets_hitOK (now : ℤ) (room : GameRoom) (bs : List Bullet)
    (hnd : (room.players.map (fun p => p.id)).Nodup) :
    ∀ (acc : TickState × List Bullet),
      (∀ b ∈ bs, b ∈ room.bullets) →
      roster acc.1.players = roster room.players →
      (∀ e ∈ acc.1.emits,
        (∀ vid dmg w bid, e = Emit.bcast none (.playerHit vid dmg w bid) →
          ∃ b₀ ∈ room.bullets, b₀.id = bid ∧ ¬ (vid = b₀.playerId) ∧
            ∃ tv, teamOfId room.players vid = some tv ∧
              ¬ (tv = (teamOfId room.players b₀.playerId).getD .red))) →
      ∀ e ∈ (bs.foldl (fun (a : TickState × List Bullet) b =>
          let r := processBullet now room.scoreLimit a.1 b
          (r.1, a.2 ++ [r.2])) acc).1.emits,
        (∀ vid dmg w bid, e = Emit.bcast none (.playerHit vid dmg w bid) →
          ∃ b₀ ∈ room.bullets, b₀.id = bid ∧ ¬ (vid = b₀.playerId) ∧
            ∃ tv, teamOfId room.players vid = some tv ∧
              ¬ (tv = (teamOfId room.players b₀.playerId).getD .red)) := by
  induction bs with
  | nil =>
    intro acc _ _ hacc e he
    exact hacc e he
  | cons b rest ih =>
    intro acc hbs hr hacc e he
    simp only [List.foldl_cons] at he
    obtain ⟨hrost, hemits⟩ := processBullet_hitOK now room.scoreLimit acc.1 b room
      (hbs b (List.mem_cons_self b rest)) hr hnd
    refine ih _ (fun b' hb' => hbs b' (List.mem_cons_of_mem b hb')) hrost ?_ e he
    intro e' he'
    rcases hemits e' he' with hin | hnew
    · exact hacc e' hin
    · exact hnew

theorem updateBullets_hitOK (now : ℤ) (room : GameRoom)
    (hnd : (room.players.map (fun p => p.id)).Nodup) :
    ∀ e ∈ (updateBullets now room).2,
      (∀ vid dmg w bid, e = Emit.bcast none (.playerHit vid dmg w bid) →
        ∃ b₀ ∈ room.bullets, b₀.id = bid ∧ ¬ (vid = b₀.playerId) ∧
          ∃ tv, teamOfId room.players vid = some tv ∧
            ¬ (tv = (teamOfId room.players b₀.playerId).getD .red)) := by
  intro e he
  exact foldlBullets_hitOK now room room.bullets hnd
    (⟨room.players, room.teamScores, room.gameEnded, room.pendingRespawns, [], []⟩, [])
    (fun b hb => hb) rfl (fun e' he' => by simp at he') e he

/-- C3 (amended): every `player_hit` recorded by a tick names a victim
different from the bullet's owner, and the victim's team differs from
the bullet's effective shooter team, where a shooter still in the
player map contributes their real team and a departed shooter is
treated as red (the source's bot fallback).  Consequently no player is
ever hit by their own bullet, and friendly fire is impossible while
the shooter is present — but a departed blue shooter's bullet is
attributed to red and may hit blue teammates. -/
theorem C3_no_self_hit_amended (room : GameRoom) (now : ℤ)
    (hnd : (room.players.map (fun p => p.id)).Nodup)
    (vid : String) (dmg : ℚ) (w bid : String)
    (hmem : Emit.bcast none (.playerHit vid dmg w bid) ∈ (updateBullets now room).2) :
    ∃ b₀ ∈ room.bullets, b₀.id = bid ∧ ¬ (vid = b₀.playerId) ∧
      ∃ tv, teamOfId room.players vid = some tv ∧
        ¬ (tv = (teamOfId room.players b₀.playerId).getD .red) ∧
        (∀ s, findPlayer room.players b₀.playerId = some s → ¬ (tv = s.team)) := by
  obtain ⟨b₀, hb₀, hbid, hself, tv, htv, hteam⟩ :=
    updateBullets_hitOK now room hnd _ hmem vid dmg w bid rfl
  refine ⟨b₀, hb₀, hbid, hself, tv, htv, hteam, ?_⟩
  intro s hs htv'
  apply hteam
  rw [show teamOfId room.players b₀.playerId = some s.team by simp [teamOfId, hs]]
  exact htv'

theorem advanceBullet_stationary {now : ℤ} {b : Bullet} (h : b.lastUpdateTime = now) :
    advanceBullet now b = b := by
  unfold advanceBullet
  rw [← h]
  simp

theorem updateBullets_single_hit {room : GameRoom} {now : ℤ} {b : Bullet}
    {victim : GamePlayer} (hbul : room.bullets = [b])
    (hexp : ¬ now - b.startTime > 3000)
    (hadv : advanceBullet now b = b)
    (hfind : findHitTarget room.players b = some victim)
    (hdead : ¬ victim.health - effectiveDamage b ≤ 0) :
    (updateBullets now room).2 =
      [.bcast none (.playerHit victim.id (effectiveDamage b) b.weapon b.id)] := by
  unfold updateBullets
  rw [hbul]
  simp only [List.foldl_cons, List.foldl_nil]
  unfold processBullet
  rw [if_neg hexp, hadv]
  simp only [hfind]
  unfold applyHit
  rw [if_neg hdead]
  simp

/-- Witness for the amended C3: in a concrete two-player room a red
player's bullet hits the blue player; the theorem yields the
no-self-hit and opposing-team facts for that recorded hit. -/
theorem C3_no_self_hit_amended_witness :
    ∃ b₀ ∈ (⟨"w",
        [⟨"A", "A", ⟨5, 5, 5⟩, ⟨0, 0, 0⟩, 100, "c", 0, true, 0, .red⟩,
         ⟨"B", "B", ⟨0, 0, 0⟩, ⟨0, 0, 0⟩, 100, "c", 0, true, 0, .blue⟩],
        [⟨"b1", "A", ⟨0, 0, 0⟩, ⟨0, 0, 1⟩, "rifle", 0, 0, 100, none⟩],
        ⟨0, 0⟩, 50, false, []⟩ : GameRoom).bullets, b₀.id = "b1" ∧ ¬ ("B" = b₀.playerId) ∧
      ∃ tv, teamOfId (⟨"w",
        [⟨"A", "A", ⟨5, 5, 5⟩, ⟨0, 0, 0⟩, 100, "c", 0, true, 0, .red⟩,
         ⟨"B", "B", ⟨0, 0, 0⟩, ⟨0, 0, 0⟩, 100, "c", 0, true, 0, .blue⟩],
        [⟨"b1", "A", ⟨0, 0, 0⟩, ⟨0, 0, 1⟩, "rifle", 0, 0, 100, none⟩],
        ⟨0, 0⟩, 50, false, []⟩ : GameRoom).players "B" = some tv ∧
        ¬ (tv = (teamOfId (⟨"w",
        [⟨"A", "A", ⟨5, 5, 5⟩, ⟨0, 0, 0⟩, 100, "c", 0, true, 0, .red⟩,
         ⟨"B", "B", ⟨0, 0, 0⟩, ⟨0, 0, 0⟩, 100, "c", 0, true, 0, .blue⟩],
        [⟨"b1", "A", ⟨0, 0, 0⟩, ⟨0, 0, 1⟩, "rifle", 0, 0, 100, none⟩],
        ⟨0, 0⟩, 50, false, []⟩ : GameRoom).players b₀.playerId).getD .red) ∧
        (∀ s, findPlayer (⟨"w",
        [⟨"A", "A", ⟨5, 5, 5⟩, ⟨0, 0, 0⟩, 100, "c", 0, true, 0, .red⟩,
         ⟨"B", "B", ⟨0, 0, 0⟩, ⟨0, 0, 0⟩, 100, "c", 0, true, 0, .blue⟩],
        [⟨"b1", "A", ⟨0, 0, 0⟩, ⟨0, 0, 1⟩, "rifle", 0, 0, 100, none⟩],
        ⟨0, 0⟩, 50, false, []⟩ : GameRoom).players b₀.playerId = some s →
          ¬ (tv = s.team)) := by
  apply C3_no_self_hit_amended _ 0 (by decide) "B" 35 "rifle" "b1"
  have hfind : findHitTarget [⟨"A", "A", ⟨5, 5, 5⟩, ⟨0, 0, 0⟩, 100, "c", 0, true, 0, .red⟩,
      ⟨"B", "B", ⟨0, 0, 0⟩, ⟨0, 0, 0⟩, 100, "c", 0, true, 0, .blue⟩]
      ⟨"b1", "A", ⟨0, 0, 0⟩, ⟨0, 0, 1⟩, "rifle", 0, 0, 100, none⟩ =
      some ⟨"B", "B", ⟨0, 0, 0⟩, ⟨0, 0, 0⟩, 100, "c", 0, true, 0, .blue⟩ := by
    unfold findHitTarget
    rw [List.find?_cons_of_neg _ (by
      simp only [decide_eq_true_eq]
      exact fun hcon => hcon.1 rfl)]
    rw [List.find?_cons_of_pos _ (by
      simp only [decide_eq_true_eq]
      refine ⟨by decide, rfl, by decide, ?_⟩
      rw [show dist3 (⟨0, 0, 0⟩ : Vec3) (⟨0, 0, 0⟩ : Vec3) = 0 from by
        unfold dist3; norm_num [Real.sqrt_zero]]
      norm_num)]
  rw [@updateBullets_single_hit ⟨"w",
      [⟨"A", "A", ⟨5, 5, 5⟩, ⟨0, 0, 0⟩, 100, "c", 0, true, 0, .red⟩,
       ⟨"B", "B", ⟨0, 0, 0⟩, ⟨0, 0, 0⟩, 100, "c", 0, true, 0, .blue⟩],
      [⟨"b1", "A", ⟨0, 0, 0⟩, ⟨0, 0, 1⟩, "rifle", 0, 0, 100, none⟩],
      ⟨0, 0⟩, 50, false, []⟩ 0
      ⟨"b1", "A", ⟨0, 0, 0⟩, ⟨0, 0, 1⟩, "rifle", 0, 0, 100, none⟩
      ⟨"B", "B", ⟨0, 0, 0⟩, ⟨0, 0, 0⟩, 100, "c", 0, true, 0, .blue⟩
      rfl (by norm_num) (advanceBullet_stationary rfl) hfind
      (by simp [effectiveDamage, getWeaponDamage]; norm_num)]
  rw [show effectiveDamage ⟨"b1", "A", ⟨0, 0, 0⟩, ⟨0, 0, 1⟩, "rifle", 0, 0, 100, none⟩ = 35
    from by simp [effectiveDamage, getWeaponDamage]]
  exact List.mem_singleton.mpr rfl

theorem runRoom_append (room : GameRoom) (l1 l2 : List RoomOp) :
    (runRoom room (l1 ++ l2)).1 = (runRoom (runRoom room l1).1 l2).1 ∧
    (runRoom room (l1 ++ l2)).2 =
      (runRoom room l1).2 ++ (runRoom (runRoom room l1).1 l2).2 := by
  induction l1 generalizing room with
  | nil => exact ⟨rfl, rfl⟩
  | cons op rest ih =>
    simp only [List.cons_append, runRoom, List.append_eq]
    obtain ⟨h1, h2⟩ := ih (roomStep room op).1
    exact ⟨h1, by rw [h2, List.append_assoc]⟩

/-- C3 counterexample: players A (red), B (blue), C (red), D (blue)
join a fresh room; B fires a bullet at D's position and then
disconnects; the next tick records a `player_hit` of D by B's bullet
`b1`, even though B and D are both on the blue team — the departed
shooter was attributed to red by the fallback, so friendly fire is
recorded. -/
theorem C3_no_friendly_fire_counterexample :
    teamOfId (runRoom (mkRoom "R")
      [.addPlayer ⟨"A", "A", ⟨50, 0, 50⟩, ⟨0, 0, 0⟩, 100⟩,
       .addPlayer ⟨"B", "B", ⟨5, 5, 5⟩, ⟨0, 0, 0⟩, 100⟩,
       .addPlayer ⟨"C", "C", ⟨-50, 0, -50⟩, ⟨0, 0, 0⟩, 100⟩,
       .addPlayer ⟨"D", "D", ⟨0, 0, 0⟩, ⟨0, 0, 0⟩, 100⟩]).1.players "B" = some .blue ∧
    teamOfId (runRoom (mkRoom "R")
      [.addPlayer ⟨"A", "A", ⟨50, 0, 50⟩, ⟨0, 0, 0⟩, 100⟩,
       .addPlayer ⟨"B", "B", ⟨5, 5, 5⟩, ⟨0, 0, 0⟩, 100⟩,
       .addPlayer ⟨"C", "C", ⟨-50, 0, -50⟩, ⟨0, 0, 0⟩, 100⟩,
       .addPlayer ⟨"D", "D", ⟨0, 0, 0⟩, ⟨0, 0, 0⟩, 100⟩]).1.players "D" = some .blue ∧
    (acceptedBullet 1000 ⟨"b1", "B", ⟨0, 0, 0⟩, ⟨0, 0, 1⟩, "rifle"⟩).playerId = "B" ∧
    (runRoom (mkRoom "R")
      ([.addPlayer ⟨"A", "A", ⟨50, 0, 50⟩, ⟨0, 0, 0⟩, 100⟩,
        .addPlayer ⟨"B", "B", ⟨5, 5, 5⟩, ⟨0, 0, 0⟩, 100⟩,
        .addPlayer ⟨"C", "C", ⟨-50, 0, -50⟩, ⟨0, 0, 0⟩, 100⟩,
        .addPlayer ⟨"D", "D", ⟨0, 0, 0⟩, ⟨0, 0, 0⟩, 100⟩] ++
       [.handleBullet 1000 ⟨"b1", "B", ⟨0, 0, 0⟩, ⟨0, 0, 1⟩, "rifle"⟩,
        .removePlayer "B"])).1.bullets =
      [acceptedBullet 1000 ⟨"b1", "B", ⟨0, 0, 0⟩, ⟨0, 0, 1⟩, "rifle"⟩] ∧
    Emit.bcast none (.playerHit "D" 35 "rifle" "b1") ∈
      (runRoom (mkRoom "R")
        ([.addPlayer ⟨"A", "A", ⟨50, 0, 50⟩, ⟨0, 0, 0⟩, 100⟩,
          .addPlayer ⟨"B", "B", ⟨5, 5, 5⟩, ⟨0, 0, 0⟩, 100⟩,
          .addPlayer ⟨"C", "C", ⟨-50, 0, -50⟩, ⟨0, 0, 0⟩, 100⟩,
          .addPlayer ⟨"D", "D", ⟨0, 0, 0⟩, ⟨0, 0, 0⟩, 100⟩] ++
         [.handleBullet 1000 ⟨"b1", "B", ⟨0, 0, 0⟩, ⟨0, 0, 1⟩, "rifle"⟩,
          .removePlayer "B",
          .tick 1000])).2 := by
  have hne : ¬ dirLen ⟨0, 0, 1⟩ ≤ 1e-6 := by
    rw [show dirLen ⟨0, 0, 1⟩ = 1 from by unfold dirLen; norm_num [Real.sqrt_one]]
    norm_num
  have h4 : (runRoom (mkRoom "R")
      [.addPlayer ⟨"A", "A", ⟨50, 0, 50⟩, ⟨0, 0, 0⟩, 100⟩,
       .addPlayer ⟨"B", "B", ⟨5, 5, 5⟩, ⟨0, 0, 0⟩, 100⟩,
       .addPlayer ⟨"C", "C", ⟨-50, 0, -50⟩, ⟨0, 0, 0⟩, 100⟩,
       .addPlayer ⟨"D", "D", ⟨0, 0, 0⟩, ⟨0, 0, 0⟩, 100⟩]).1 =
      ⟨"R", [⟨"A", "A", ⟨50, 0, 50⟩, ⟨0, 0, 0⟩, 100, "#ff4444", 0, true, 0, .red⟩,
             ⟨"B", "B", ⟨5, 5, 5⟩, ⟨0, 0, 0⟩, 100, "#4444ff", 0, true, 0, .blue⟩,
             ⟨"C", "C", ⟨-50, 0, -50⟩, ⟨0, 0, 0⟩, 100, "#ff4444", 0, true, 0, .red⟩,
             ⟨"D", "D", ⟨0, 0, 0⟩, ⟨0, 0, 0⟩, 100, "#4444ff", 0, true, 0, .blue⟩],
       [], ⟨0, 0⟩, 50, false, []⟩ := rfl
  have hR5 : (roomStep ⟨"R",
      [⟨"A", "A", ⟨50, 0, 50⟩, ⟨0, 0, 0⟩, 100, "#ff4444", 0, true, 0, .red⟩,
       ⟨"B", "B", ⟨5, 5, 5⟩, ⟨0, 0, 0⟩, 100, "#4444ff", 0, true, 0, .blue⟩,
       ⟨"C", "C", ⟨-50, 0, -50⟩, ⟨0, 0, 0⟩, 100, "#ff4444", 0, true, 0, .red⟩,
       ⟨"D", "D", ⟨0, 0, 0⟩, ⟨0, 0, 0⟩, 100, "#4444ff", 0, true, 0, .blue⟩],
      [], ⟨0, 0⟩, 50, false, []⟩
      (.handleBullet 1000 ⟨"b1", "B", ⟨0, 0, 0⟩, ⟨0, 0, 1⟩, "rifle"⟩)).1 =
      ⟨"R", [⟨"A", "A", ⟨50, 0, 50⟩, ⟨0, 0, 0⟩, 100, "#ff4444", 0, true, 0, .red⟩,
             ⟨"B", "B", ⟨5, 5, 5⟩, ⟨0, 0, 0⟩, 100, "#4444ff", 0, true, 1000, .blue⟩,
             ⟨"C", "C", ⟨-50, 0, -50⟩, ⟨0, 0, 0⟩, 100, "#ff4444", 0, true, 0, .red⟩,
             ⟨"D", "D", ⟨0, 0, 0⟩, ⟨0, 0, 0⟩, 100, "#4444ff", 0, true, 0, .blue⟩],
       [acceptedBullet 1000 ⟨"b1", "B", ⟨0, 0, 0⟩, ⟨0, 0, 1⟩, "rifle"⟩],
       ⟨0, 0⟩, 50, false, []⟩ := by
    show (handleBullet _ 1000 _).1 = _
    rw [@handleBullet_accepted_present ⟨"R",
      [⟨"A", "A", ⟨50, 0, 50⟩, ⟨0, 0, 0⟩, 100, "#ff4444", 0, true, 0, .red⟩,
       ⟨"B", "B", ⟨5, 5, 5⟩, ⟨0, 0, 0⟩, 100, "#4444ff", 0, true, 0, .blue⟩,
       ⟨"C", "C", ⟨-50, 0, -50⟩, ⟨0, 0, 0⟩, 100, "#ff4444", 0, true, 0, .red⟩,
       ⟨"D", "D", ⟨0, 0, 0⟩, ⟨0, 0, 0⟩, 100, "#4444ff", 0, true, 0, .blue⟩],
      [], ⟨0, 0⟩, 50, false, []⟩ 1000 ⟨"b1", "B", ⟨0, 0, 0⟩, ⟨0, 0, 1⟩, "rifle"⟩
      ⟨"B", "B", ⟨5, 5, 5⟩, ⟨0, 0, 0⟩, 100, "#4444ff", 0, true, 0, .blue⟩
      rfl (by norm_num) hne]
    rfl
  have hR6 : (roomStep ⟨"R",
      [⟨"A", "A", ⟨50, 0, 50⟩, ⟨0, 0, 0⟩, 100, "#ff4444", 0, true, 0, .red⟩,
       ⟨"B", "B", ⟨5, 5, 5⟩, ⟨0, 0, 0⟩, 100, "#4444ff", 0, true, 1000, .blue⟩,
       ⟨"C", "C", ⟨-50, 0, -50⟩, ⟨0, 0, 0⟩, 100, "#ff4444", 0, true, 0, .red⟩,
       ⟨"D", "D", ⟨0, 0, 0⟩, ⟨0, 0, 0⟩, 100, "#4444ff", 0, true, 0, .blue⟩],
      [acceptedBullet 1000 ⟨"b1", "B", ⟨0, 0, 0⟩, ⟨0, 0, 1⟩, "rifle"⟩],
      ⟨0, 0⟩, 50, false, []⟩ (.removePlayer "B")).1 =
      ⟨"R", [⟨"A", "A", ⟨50, 0, 50⟩, ⟨0, 0, 0⟩, 100, "#ff4444", 0, true, 0, .red⟩,
             ⟨"C", "C", ⟨-50, 0, -50⟩, ⟨0, 0, 0⟩, 100, "#ff4444", 0, true, 0, .red⟩,
             ⟨"D", "D", ⟨0, 0, 0⟩, ⟨0, 0, 0⟩, 100, "#4444ff", 0, true, 0, .blue⟩],
       [acceptedBullet 1000 ⟨"b1", "B", ⟨0, 0, 0⟩, ⟨0, 0, 1⟩, "rifle"⟩],
       ⟨0, 0⟩, 50, false, []⟩ := rfl
  have hfind : findHitTarget
      [⟨"A", "A", ⟨50, 0, 50⟩, ⟨0, 0, 0⟩, 100, "#ff4444", 0, true, 0, .red⟩,
       ⟨"C", "C", ⟨-50, 0, -50⟩, ⟨0, 0, 0⟩, 100, "#ff4444", 0, true, 0, .red⟩,
       ⟨"D", "D", ⟨0, 0, 0⟩, ⟨0, 0, 0⟩, 100, "#4444ff", 0, true, 0, .blue⟩]
      (acceptedBullet 1000 ⟨"b1", "B", ⟨0, 0, 0⟩, ⟨0, 0, 1⟩, "rifle"⟩) =
      some ⟨"D", "D", ⟨0, 0, 0⟩, ⟨0, 0, 0⟩, 100, "#4444ff", 0, true, 0, .blue⟩ := by
    unfold findHitTarget
    rw [List.find?_cons_of_neg _ (by
      simp only [decide_eq_true_eq]
      exact fun hcon => hcon.2.2.1 rfl)]
    rw [List.find?_cons_of_neg _ (by
      simp only [decide_eq_true_eq]
      exact fun hcon => hcon.2.2.1 rfl)]
    rw [List.find?_cons_of_pos _ (by
      simp only [decide_eq_true_eq]
      refine ⟨by decide, rfl, by decide, ?_⟩
      rw [show (acceptedBullet 1000 ⟨"b1", "B", ⟨0, 0, 0⟩, ⟨0, 0, 1⟩, "rifle"⟩).position =
        (⟨0, 0, 0⟩ : Vec3) from rfl]
      rw [show dist3 (⟨0, 0, 0⟩ : Vec3) (⟨0, 0, 0⟩ : Vec3) = 0 from by
        unfold dist3; norm_num [Real.sqrt_zero]]
      norm_num)]
  have hmem_tick : Emit.bcast none (.playerHit "D" 35 "rifle" "b1") ∈
      (updateBullets 1000 ⟨"R",
        [⟨"A", "A", ⟨50, 0, 50⟩, ⟨0, 0, 0⟩, 100, "#ff4444", 0, true, 0, .red⟩,
         ⟨"C", "C", ⟨-50, 0, -50⟩, ⟨0, 0, 0⟩, 100, "#ff4444", 0, true, 0, .red⟩,
         ⟨"D", "D", ⟨0, 0, 0⟩, ⟨0, 0, 0⟩, 100, "#4444ff", 0, true, 0, .blue⟩],
        [acceptedBullet 1000 ⟨"b1", "B", ⟨0, 0, 0⟩, ⟨0, 0, 1⟩, "rifle"⟩],
        ⟨0, 0⟩, 50, false, []⟩).2 := by
    rw [@updateBullets_single_hit ⟨"R",
        [⟨"A", "A", ⟨50, 0, 50⟩, ⟨0, 0, 0⟩, 100, "#ff4444", 0, true, 0, .red⟩,
         ⟨"C", "C", ⟨-50, 0, -50⟩, ⟨0, 0, 0⟩, 100, "#ff4444", 0, true, 0, .red⟩,
         ⟨"D", "D", ⟨0, 0, 0⟩, ⟨0, 0, 0⟩, 100, "#4444ff", 0, true, 0, .blue⟩],
        [acceptedBullet 1000 ⟨"b1", "B", ⟨0, 0, 0⟩, ⟨0, 0, 1⟩, "rifle"⟩],
        ⟨0, 0⟩, 50, false, []⟩ 1000
        (acceptedBullet 1000 ⟨"b1", "B", ⟨0, 0, 0⟩, ⟨0, 0, 1⟩, "rifle"⟩)
        ⟨"D", "D", ⟨0, 0, 0⟩, ⟨0, 0, 0⟩, 100, "#4444ff", 0, true, 0, .blue⟩
        rfl (by norm_num [acceptedBullet]) (advanceBullet_stationary rfl) hfind
        (by simp [effectiveDamage, getWeaponDamage, acceptedBullet]; norm_num)]
    rw [show effectiveDamage (acceptedBullet 1000 ⟨"b1", "B", ⟨0, 0, 0⟩, ⟨0, 0, 1⟩, "rifle"⟩) = 35
      from by simp [effectiveDamage, getWeaponDamage, acceptedBullet]]
    exact List.mem_singleton.mpr rfl
  refine ⟨by rw [h4]; rfl, by rw [h4]; rfl, rfl, ?_, ?_⟩
  · rw [(runRoom_append (mkRoom "R") _ _).1, h4]
    simp only [runRoom]
    rw [hR5, hR6]
  · rw [(runRoom_append (mkRoom "R") _ _).2, h4]
    apply List.mem_append_right
    simp only [runRoom]
    rw [hR5, hR6]
    apply List.mem_append_right
    apply List.mem_append_right
    apply List.mem_append_left
    exact hmem_tick

/-! ### Bullet removal: expiry, hits, and the absent bounds check -/

theorem applyHit_toRemove (now : ℤ) (limit : ℕ) (st : TickState) (b : Bullet)
    (victim : GamePlayer) :
    (applyHit now limit st b victim).toRemove = st.toRemove ++ [b.id] := by
  unfold applyHit
  by_cases hdead : victim.health - effectiveDamage b ≤ 0
  · simp only [hdead, if_true]
  · simp only [hdead, if_false]

theorem processBullet_toRemove_cases (now : ℤ) (limit : ℕ) (st : TickState) (b : Bullet) :
    (processBullet now limit st b).1.toRemove = st.toRemove ++ [b.id] ∨
    (processBullet now limit st b).1.toRemove = st.toRemove := by
  unfold processBullet
  split_ifs with h
  · exact Or.inl rfl
  · cases hft : findHitTarget st.players (advanceBullet now b) with
    | none =>
      simp only [hft]
      exact Or.inr trivial
    | some victim =>
      simp only [hft]
      exact Or.inl (applyHit_toRemove now limit st (advanceBullet now b) victim)

theorem processBullet_toRemove_mono (now : ℤ) (limit : ℕ) (st : TickState) (b : Bullet) :
    ∀ x ∈ st.toRemove, x ∈ (processBullet now limit st b).1.toRemove := by
  intro x hx
  rcases processBullet_toRemove_cases now limit st b with h | h <;> rw [h]
  · exact List.mem_append_left _ hx
  · exact hx

theorem processBullet_expired_toRemove (now : ℤ) (limit : ℕ) (st : TickState)
    (b : Bullet) (h : now - b.startTime > 3000) :
    b.id ∈ (processBullet now limit st b).1.toRemove := by
  unfold processBullet
  rw [if_pos h]
  exact List.mem_append_right _ (List.mem_singleton.mpr rfl)

theorem foldl_toRemove_mono (now : ℤ) (limit : ℕ) (bs : List Bullet)
    (acc : TickState × List Bullet) :
    ∀ x ∈ acc.1.toRemove, x ∈ (bs.foldl (fun (a : TickState × List Bullet) b =>
      let r := processBullet now limit a.1 b
      (r.1, a.2 ++ [r.2])) acc).1.toRemove := by
  induction bs generalizing acc with
  | nil => exact fun x hx => hx
  | cons b rest ih =>
    intro x hx
    simp only [List.foldl_cons]
    exact ih _ x (processBullet_toRemove_mono now limit acc.1 b x hx)

theorem foldl_expired_toRemove (now : ℤ) (limit : ℕ) (bs : List Bullet)
    {b : Bullet} (hb : b ∈ bs) (hexp : now - b.startTime > 3000) :
    ∀ acc : TickState × List Bullet,
      b.id ∈ (bs.foldl (fun (a : TickState × List Bullet) b =>
        let r := processBullet now limit a.1 b
        (r.1, a.2 ++ [r.2])) acc).1.toRemove := by
  induction bs with
  | nil => simp at hb
  | cons b' rest ih =>
    intro acc
    simp only [List.foldl_cons]
    rcases List.mem_cons.mp hb with hq | hq
    · subst hq
      exact foldl_toRemove_mono now limit rest _ b.id
        (processBullet_expired_toRemove now limit acc.1 b hexp)
    · exact ih hq _

theorem processBullet_hitEmit_step (now : ℤ) (limit : ℕ) (st : TickState) (b : Bullet) :
    ∀ vid dmg w bid,
      Emit.bcast none (.playerHit vid dmg w bid) ∈ (processBullet now limit st b).1.emits →
      Emit.bcast none (.playerHit vid dmg w bid) ∈ st.emits ∨
      (bid = b.id ∧ ¬ now - b.startTime > 3000 ∧
        bid ∈ (processBullet now limit st b).1.toRemove) := by
  unfold processBullet
  split_ifs with h
  · exact fun vid dmg w bid hm => Or.inl hm
  · cases hft : findHitTarget st.players (advanceBullet now b) with
    | none =>
      simp only [hft]
      exact fun vid dmg w bid hm => Or.inl hm
    | some victim =>
      simp only [hft]
      intro vid dmg w bid hm
      rcases applyHit_hitEmits now limit st (advanceBullet now b) victim _ hm with hin | hnew
      · exact Or.inl hin
      · obtain ⟨hvid, hbid⟩ := hnew vid dmg w bid rfl
        right
        refine ⟨hbid, h, ?_⟩
        rw [applyHit_toRemove]
        exact List.mem_append_right _ (List.mem_singleton.mpr hbid)

theorem foldl_hitEmit_books (now : ℤ) (limit : ℕ) (room : GameRoom) (bs : List Bullet)
    (hbs : ∀ b ∈ bs, b ∈ room.bullets) :
    ∀ acc : TickState × List Bullet,
      (∀ vid dmg w bid, Emit.bcast none (.playerHit vid dmg w bid) ∈ acc.1.emits →
        bid ∈ acc.1.toRemove ∧
        ∃ b' ∈ room.bullets, b'.id = bid ∧ ¬ now - b'.startTime > 3000) →
      ∀ vid dmg w bid,
        Emit.bcast none (.playerHit vid dmg w bid) ∈ (bs.foldl
          (fun (a : TickState × List Bullet) b =>
            let r := processBullet now limit a.1 b
            (r.1, a.2 ++ [r.2])) acc).1.emits →
        bid ∈ (bs.foldl (fun (a : TickState × List Bullet) b =>
            let r := processBullet now limit a.1 b
            (r.1, a.2 ++ [r.2])) acc).1.toRemove ∧
        ∃ b' ∈ room.bullets, b'.id = bid ∧ ¬ now - b'.startTime > 3000 := by
  induction bs with
  | nil => exact fun acc hacc => hacc
  | cons b rest ih =>
    intro acc hacc
    simp only [List.foldl_cons]
    refine ih (fun b' hb' => hbs b' (List.mem_cons_of_mem b hb')) _ ?_
    intro vid dmg w bid hm
    rcases processBullet_hitEmit_step now limit acc.1 b vid dmg w bid hm with hin | ⟨hbid, hexp, hrem⟩
    · obtain ⟨h1, h2⟩ := hacc vid dmg w bid hin
      exact ⟨processBullet_toRemove_mono now limit acc.1 b bid h1, h2⟩
    · exact ⟨hrem, b, hbs b (List.mem_cons_self b rest), hbid.symm, hexp⟩

theorem bullet_id_inj {l : List Bullet} (hnd : (l.map (fun b => b.id)).Nodup)
    {b b' : Bullet} (hb : b ∈ l) (hb' : b' ∈ l) (h : b'.id = b.id) : b' = b := by
  induction l with
  | nil => simp at hb
  | cons q rest ih =>
    simp only [List.map_cons, List.nodup_cons] at hnd
    rcases List.mem_cons.mp hb with hq | hq <;> rcases List.mem_cons.mp hb' with hq' | hq'
    · rw [hq, hq']
    · subst hq
      have hmm : b'.id ∈ rest.map (fun x => x.id) := List.mem_map_of_mem (fun x => x.id) hq'
      rw [h] at hmm
      exact absurd hmm hnd.1
    · subst hq'
      have hmm : b.id ∈ rest.map (fun x => x.id) := List.mem_map_of_mem (fun x => x.id) hq
      rw [← h] at hmm
      exact absurd hmm hnd.1
    · exact ih hnd.2 hq hq'

theorem updateBullets_toRemove_excludes (now : ℤ) (room : GameRoom) (bid : String)
    (hrem : bid ∈ (room.bullets.foldl (fun (a : TickState × List Bullet) b =>
      let r := processBullet now room.scoreLimit a.1 b
      (r.1, a.2 ++ [r.2]))
      (⟨⟨room.players, room.teamScores, room.gameEnded, room.pendingRespawns, [], []⟩, []⟩ :
        TickState × List Bullet)).1.toRemove) :
    ∀ b' ∈ (updateBullets now room).1.bullets, ¬ (b'.id = bid) := by
  intro b' hb' heq
  simp only [updateBullets] at hb'
  have hpred := List.of_mem_filter hb'
  rw [heq] at hpred
  simp only [decide_eq_true_eq] at hpred
  exact hpred (by simpa using hrem)

/-- C5 (amended): in any tick, a bullet whose age exceeds 3000 ms is
flagged and gone from the bullet map afterwards and is never scanned
for hits in that tick (so expiry and a hit can never both happen to
the same bullet in one tick), and every bullet that registers a hit is
flagged and gone afterwards; flagged bullets are deleted only after
the whole scan, which the fold-then-filter structure realizes.  The
server performs no out-of-bounds removal: that clause of the claim is
refuted by the counterexample. -/
theorem C5_bullet_removal_amended (room : GameRoom) (now : ℤ)
    (hnd : (room.bullets.map (fun b => b.id)).Nodup) :
    (∀ b ∈ room.bullets, now - b.startTime > 3000 →
       (∀ b' ∈ (updateBullets now room).1.bullets, ¬ (b'.id = b.id)) ∧
       (∀ vid dmg w, Emit.bcast none (.playerHit vid dmg w b.id) ∉ (updateBullets now room).2)) ∧
    (∀ vid dmg w bid, Emit.bcast none (.playerHit vid dmg w bid) ∈ (updateBullets now room).2 →
       ∀ b' ∈ (updateBullets now room).1.bullets, ¬ (b'.id = bid)) := by
  have hbooks := foldl_hitEmit_books now room.scoreLimit room room.bullets
    (fun b hb => hb)
    (⟨⟨room.players, room.teamScores, room.gameEnded, room.pendingRespawns, [], []⟩, []⟩ :
      TickState × List Bullet)
    (by intro vid dmg w bid hm; simp at hm)
  constructor
  · intro b hb hexp
    constructor
    · exact updateBullets_toRemove_excludes now room b.id
        (foldl_expired_toRemove now room.scoreLimit room.bullets hb hexp _)
    · intro vid dmg w hm
      obtain ⟨_, b', hb', hbid, hnexp⟩ := hbooks vid dmg w b.id hm
      exact hnexp (by rw [bullet_id_inj hnd hb hb' hbid]; exact hexp)
  · intro vid dmg w bid hm
    obtain ⟨hrem, _⟩ := hbooks vid dmg w bid hm
    exact updateBullets_toRemove_excludes now room bid hrem

/-- Witness for the amended C5: a concrete expired bullet is removed
by the tick and registers no hit. -/
theorem C5_bullet_removal_amended_witness :
    (∀ b' ∈ (updateBullets 5000 ⟨"r", [], [⟨"b1", "P", ⟨0, 0, 0⟩, ⟨0, 0, 1⟩, "rifle",
        0, 0, 100, none⟩], ⟨0, 0⟩, 50, false, []⟩).1.bullets, ¬ (b'.id = "b1")) ∧
    (∀ vid dmg w, Emit.bcast none (.playerHit vid dmg w "b1") ∉
      (updateBullets 5000 ⟨"r", [], [⟨"b1", "P", ⟨0, 0, 0⟩, ⟨0, 0, 1⟩, "rifle",
        0, 0, 100, none⟩], ⟨0, 0⟩, 50, false, []⟩).2) :=
  (C5_bullet_removal_amended ⟨"r", [], [⟨"b1", "P", ⟨0, 0, 0⟩, ⟨0, 0, 1⟩, "rifle",
      0, 0, 100, none⟩], ⟨0, 0⟩, 50, false, []⟩ 5000 (by decide)).1
    ⟨"b1", "P", ⟨0, 0, 0⟩, ⟨0, 0, 1⟩, "rifle", 0, 0, 100, none⟩
    (List.mem_singleton.mpr rfl) (by norm_num)

/-- C5 counterexample: the server tick contains no out-of-bounds
check — a young bullet a million units outside the play area survives
the tick untouched, so a bullet is not removed within one tick of its
displacement going out of bounds. -/
theorem C5_out_of_bounds_counterexample :
    specOutOfBounds (⟨1000000, 0, 0⟩ : Vec3) ∧
    (updateBullets 100 ⟨"r", [], [⟨"b1", "P", ⟨1000000, 0, 0⟩, ⟨0, 0, 1⟩, "rifle",
        0, 100, 100, none⟩], ⟨0, 0⟩, 50, false, []⟩).1.bullets =
      [advanceBullet 100 ⟨"b1", "P", ⟨1000000, 0, 0⟩, ⟨0, 0, 1⟩, "rifle", 0, 100, 100, none⟩] ∧
    (advanceBullet 100 ⟨"b1", "P", ⟨1000000, 0, 0⟩, ⟨0, 0, 1⟩, "rifle",
        0, 100, 100, none⟩).id = "b1" ∧
    specOutOfBounds (advanceBullet 100 ⟨"b1", "P", ⟨1000000, 0, 0⟩, ⟨0, 0, 1⟩, "rifle",
        0, 100, 100, none⟩).position ∧
    ¬ ((100 : ℤ) - (⟨"b1", "P", ⟨1000000, 0, 0⟩, ⟨0, 0, 1⟩, "rifle",
        0, 100, 100, none⟩ : Bullet).startTime > 3000) := by
  refine ⟨?_, ?_, rfl, ?_, by norm_num⟩
  · left
    rw [abs_of_pos (by norm_num)]
    norm_num
  · rfl
  · rw [@advanceBullet_stationary 100 ⟨"b1", "P", ⟨1000000, 0, 0⟩, ⟨0, 0, 1⟩, "rifle",
      0, 100, 100, none⟩ rfl]
    left
    rw [show (⟨"b1", "P", ⟨1000000, 0, 0⟩, ⟨0, 0, 1⟩, "rifle",
      0, 100, 100, none⟩ : Bullet).position.x = 1000000 from rfl]
    rw [abs_of_pos (by norm_num)]
    norm_num

/-! ### Server-level room membership -/

theorem setPlayer_mem {l : List GamePlayer} {p a : GamePlayer} (h : a ∈ setPlayer l p) :
    a = p ∨ a ∈ l := by
  induction l with
  | nil => simpa [setPlayer] using h
  | cons q rest ih =>
    simp only [setPlayer] at h
    by_cases hq : q.id = p.id
    · rw [if_pos hq] at h
      rcases List.mem_cons.mp h with h | h
      · exact Or.inl h
      · exact Or.inr (List.mem_cons_of_mem _ h)
    · rw [if_neg hq] at h
      rcases List.mem_cons.mp h with h | h
      · exact Or.inr (by simp [h])
      · rcases ih h with h' | h'
        · exact Or.inl h'
        · exact Or.inr (List.mem_cons_of_mem _ h')

theorem updatePlayer_map_id (l : List GamePlayer) (pid : String)
    (f : GamePlayer → GamePlayer) (hid : ∀ p, (f p).id = p.id) :
    (updatePlayer l pid f).map (fun p => p.id) = l.map (fun p => p.id) := by
  induction l with
  | nil => rfl
  | cons p rest ih =>
    simp only [updatePlayer, List.map_cons] at ih ⊢
    by_cases h : p.id = pid
    · rw [if_pos h, hid p, ih]
    · rw [if_neg h, ih]

theorem any_id_via_map (l : List GamePlayer) (pid : String) :
    l.any (fun p => p.id == pid) = (l.map (fun p => p.id)).any (fun x => x == pid) := by
  induction l with
  | nil => rfl
  | cons p rest ih =>
    simp only [List.any_cons, List.map_cons]
    rw [ih]

theorem any_id_eq_of_map_id {l₁ l₂ : List GamePlayer}
    (h : l₁.map (fun p => p.id) = l₂.map (fun p => p.id)) (pid : String) :
    (l₁.any (fun p => p.id == pid)) = (l₂.any (fun p => p.id == pid)) := by
  rw [any_id_via_map, any_id_via_map, h]

theorem handleBullet_player_ids (room : GameRoom) (now : ℤ) (bd : BulletData) :
    (handleBullet room now bd).1.players.map (fun p => p.id) =
      room.players.map (fun p => p.id) := by
  rcases hfp : findPlayer room.players bd.playerId with _ | p
  · by_cases hz : dirLen bd.direction ≤ 1e-6
    · rw [handleBullet_zeroDir_absent hfp hz]
    · rw [handleBullet_accepted_absent hfp hz]
  · by_cases hrl : now - p.lastShotTime < 100
    · rw [handleBullet_rateDropped hfp hrl]
    · by_cases hz : dirLen bd.direction ≤ 1e-6
      · rw [handleBullet_zeroDir_present hfp hrl hz]
        exact updatePlayer_map_id _ _ _ (fun _ => rfl)
      · rw [handleBullet_accepted_present hfp hrl hz]
        exact updatePlayer_map_id _ _ _ (fun _ => rfl)

theorem broadcastPlayerUpdate_player_ids (room : GameRoom) (pid : String)
    (pos rot : Vec3) (hq : ℚ) :
    (broadcastPlayerUpdate room pid pos rot hq).1.players.map (fun p => p.id) =
      room.players.map (fun p => p.id) := by
  unfold broadcastPlayerUpdate
  cases h : findPlayer room.players pid with
  | none => rfl
  | some p =>
    simp only [h]
    exact updatePlayer_map_id _ _ _ (fun _ => rfl)

theorem fireRespawn_player_ids (room : GameRoom) (pid : String) (due : ℤ) (k : ℕ) :
    (fireRespawn room pid due k).1.players.map (fun p => p.id) =
      room.players.map (fun p => p.id) := by
  unfold fireRespawn
  cases h : findPlayer room.players pid with
  | none => simp only [h]
  | some p =>
    simp only [h]
    split_ifs
    · exact updatePlayer_map_id _ _ _ (fun _ => rfl)
    · rfl

theorem processBullet_roster (now : ℤ) (limit : ℕ) (st : TickState) (b : Bullet) :
    roster (processBullet now limit st b).1.players = roster st.players := by
  unfold processBullet
  split_ifs with h
  · rfl
  · cases hft : findHitTarget st.players (advanceBullet now b) with
    | none =>
      simp only [hft]
    | some victim =>
      simp only [hft]
      exact applyHit_roster now limit st (advanceBullet now b) victim

theorem foldlBullets_roster (now : ℤ) (limit : ℕ) (bs : List Bullet)
    (acc : TickState × List Bullet) :
    roster (bs.foldl (fun (a : TickState × List Bullet) b =>
      let r := processBullet now limit a.1 b
      (r.1, a.2 ++ [r.2])) acc).1.players = roster acc.1.players := by
  induction bs generalizing acc with
  | nil => rfl
  | cons b rest ih =>
    simp only [List.foldl_cons]
    rw [ih]
    exact processBullet_roster now limit acc.1 b

theorem updateBullets_player_ids (now : ℤ) (room : GameRoom) :
    (updateBullets now room).1.players.map (fun p => p.id) =
      room.players.map (fun p => p.id) := by
  apply ids_eq_of_roster
  exact foldlBullets_roster now room.scoreLimit room.bullets
    (⟨room.players, room.teamScores, room.gameEnded, room.pendingRespawns, [], []⟩, [])

theorem countP_setRoom_le (rooms : List (String × GameRoom)) (code : String)
    (r : GameRoom) (q : String × GameRoom → Bool) :
    (setRoom rooms code r).countP q ≤ rooms.countP q +
      (if q (code, r) = true then 1 else 0) := by
  induction rooms with
  | nil =>
    simp only [setRoom, List.countP_cons, List.countP_nil]
    split_ifs <;> simp_all
  | cons e rest ih =>
    simp only [setRoom]
    by_cases he : e.1 = code
    · rw [if_pos he]
      simp only [List.countP_cons]
      split_ifs <;> omega
    · rw [if_neg he]
      simp only [List.countP_cons]
      split_ifs at * <;> omega

theorem countP_setRoom_found (rooms : List (String × GameRoom)) (code : String)
    (r r₀ : GameRoom) (q : String × GameRoom → Bool)
    (hf : findRoom rooms code = some r₀)
    (himp : q (code, r) = true → q (code, r₀) = true) :
    (setRoom rooms code r).countP q ≤ rooms.countP q := by
  induction rooms with
  | nil => simp [findRoom] at hf
  | cons e rest ih =>
    simp only [setRoom]
    by_cases he : e.1 = code
    · rw [if_pos he]
      have he2 : r₀ = e.2 := by
        unfold findRoom at hf
        rw [List.find?_cons_of_pos _ (by simpa using he)] at hf
        simpa using hf.symm
      have hee : e = (code, e.2) := by
        rw [← he]
      simp only [List.countP_cons]
      subst he2
      rw [hee]
      split_ifs with h1 h2
      · omega
      · exact absurd (himp h1) h2
      · omega
      · omega
    · rw [if_neg he]
      have hf' : findRoom rest code = some r₀ := by
        unfold findRoom at hf ⊢
        rw [List.find?_cons_of_neg _ (by simpa using he)] at hf
        exact hf
      simp only [List.countP_cons]
      have := ih hf'
      omega

theorem updateAllRooms_rooms (s : GameServer) (now : ℤ) :
    (updateAllRooms s now).1.rooms =
      s.rooms.map (fun cr => (cr.1, (updateBullets now cr.2).1)) := by
  unfold updateAllRooms
  suffices h : ∀ (l : List (String × GameRoom)) (acc : List (String × GameRoom) × List Emit),
      (l.foldl (fun (a : List (String × GameRoom) × List Emit) cr =>
        (a.1 ++ [(cr.1, (updateBullets now cr.2).1)], a.2 ++ (updateBullets now cr.2).2)) acc).1 =
      acc.1 ++ l.map (fun cr => (cr.1, (updateBullets now cr.2).1)) by
    simpa using h s.rooms ([], [])
  intro l
  induction l with
  | nil => simp
  | cons cr rest ih =>
    intro acc
    simp only [List.foldl_cons, List.map_cons]
    rw [ih]
    simp

theorem countP_filter_le {α : Type} (l : List α) (p f : α → Bool) :
    (l.filter f).countP p ≤ l.countP p := by
  induction l with
  | nil => exact le_refl _
  | cons a rest ih =>
    rw [List.filter_cons]
    by_cases hf : f a = true
    · rw [if_pos hf]
      simp only [List.countP_cons]
      omega
    · rw [if_neg hf]
      simp only [List.countP_cons]
      omega

theorem addPlayer_players (room : GameRoom) (pd : PlayerData) :
    (addPlayer room pd).1.players = setPlayer room.players
      ⟨pd.id, pd.name, pd.position, pd.rotation, pd.health,
       getTeamColor (assignPlayerTeam room), 0, true, 0, assignPlayerTeam room⟩ := rfl

theorem removePlayer_players_subimp (room : GameRoom) (rpid pid : String) :
    ((removePlayer room rpid).1.players.any (fun q => q.id == pid)) = true →
    (room.players.any (fun q => q.id == pid)) = true := by
  unfold removePlayer
  cases h : findPlayer room.players rpid with
  | none => exact fun h2 => h2
  | some p =>
    intro h2
    rw [List.any_eq_true] at h2 ⊢
    obtain ⟨x, hx, hpx⟩ := h2
    exact ⟨x, List.mem_of_mem_filter hx, hpx⟩

theorem memberCount_setRoom_le (s : GameServer) (code : String) (r : GameRoom)
    (pid : String) :
    (setRoom s.rooms code r).countP
      (fun cr => cr.2.players.any (fun q => q.id == pid)) ≤ memberCount s pid + 1 := by
  refine le_trans (countP_setRoom_le s.rooms code r _) ?_
  have h3 : memberCount s pid =
      s.rooms.countP (fun cr => cr.2.players.any (fun q => q.id == pid)) := rfl
  rw [h3]
  exact Nat.add_le_add_left (by split_ifs <;> omega) _

theorem memberCount_setRoom_notmem (s : GameServer) (code : String) (r : GameRoom)
    (pid : String) (h0 : (r.players.any (fun q => q.id == pid)) = false) :
    (setRoom s.rooms code r).countP
      (fun cr => cr.2.players.any (fun q => q.id == pid)) ≤ memberCount s pid := by
  refine le_trans (countP_setRoom_le s.rooms code r _) ?_
  have h3 : memberCount s pid =
      s.rooms.countP (fun cr => cr.2.players.any (fun q => q.id == pid)) := rfl
  rw [h3]
  split_ifs with hc
  · exfalso
    have hc2 : (r.players.any (fun q => q.id == pid)) = true := hc
    rw [h0] at hc2
    exact Bool.noConfusion hc2
  · omega

theorem memberCount_setRoom_found (s : GameServer) (code : String) (r r₀ : GameRoom)
    (pid : String) (hf : findRoom s.rooms code = some r₀)
    (himp : (r.players.any (fun q => q.id == pid)) = true →
            (r₀.players.any (fun q => q.id == pid)) = true) :
    (setRoom s.rooms code r).countP
      (fun cr => cr.2.players.any (fun q => q.id == pid)) ≤ memberCount s pid :=
  countP_setRoom_found s.rooms code r r₀ _ hf (fun h => himp h)

theorem memberCount_connect (s : GameServer) (conn : ℕ) (pid : String) :
    memberCount (handleConnection s conn) pid = memberCount s pid := rfl

theorem memberCount_playerUpdate (s : GameServer) (conn : ℕ) (pos rot : Vec3)
    (hq : ℚ) (pid : String) :
    memberCount (handlePlayerUpdate s conn pos rot hq).1 pid ≤ memberCount s pid := by
  unfold handlePlayerUpdate
  cases hfc : findConn s.players conn with
  | none => exact le_refl _
  | some p =>
    simp only [hfc]
    cases hr : p.roomId with
    | none => exact le_refl _
    | some code =>
      simp only [hr]
      cases hfr : findRoom s.rooms code with
      | none => exact le_refl _
      | some room =>
        refine memberCount_setRoom_found s code _ room pid hfr ?_
        intro h
        have h2 : ((broadcastPlayerUpdate room p.id pos rot hq).1.players.any
            (fun q => q.id == pid)) = true := h
        rw [any_id_eq_of_map_id (broadcastPlayerUpdate_player_ids room p.id pos rot hq) pid] at h2
        exact h2

theorem memberCount_bulletFired (s : GameServer) (conn : ℕ) (bid : String)
    (pos dir : Vec3) (w : String) (now : ℤ) (pid : String) :
    memberCount (handleBulletFired s conn bid pos dir w now).1 pid ≤ memberCount s pid := by
  unfold handleBulletFired
  cases hfc : findConn s.players conn with
  | none => exact le_refl _
  | some p =>
    simp only [hfc]
    cases hr : p.roomId with
    | none => exact le_refl _
    | some code =>
      simp only [hr]
      cases hfr : findRoom s.rooms code with
      | none => exact le_refl _
      | some room =>
        refine memberCount_setRoom_found s code _ room pid hfr ?_
        intro h
        have h2 : ((handleBullet room now ⟨bid, p.id, pos, dir, w⟩).1.players.any
            (fun q => q.id == pid)) = true := h
        rw [any_id_eq_of_map_id (handleBullet_player_ids room now ⟨bid, p.id, pos, dir, w⟩) pid] at h2
        exact h2

theorem memberCount_respawnTimer (s : GameServer) (code rpid : String) (due : ℤ)
    (k : ℕ) (pid : String) :
    memberCount (serverFireRespawn s code rpid due k).1 pid ≤ memberCount s pid := by
  unfold serverFireRespawn
  cases hfr : findRoom s.rooms code with
  | none => exact le_refl _
  | some room =>
    refine memberCount_setRoom_found s code _ room pid hfr ?_
    intro h
    have h2 : ((fireRespawn room rpid due k).1.players.any (fun q => q.id == pid)) = true := h
    rw [any_id_eq_of_map_id (fireRespawn_player_ids room rpid due k) pid] at h2
    exact h2

theorem memberCount_disconnect (s : GameServer) (conn : ℕ) (pid : String) :
    memberCount (handleDisconnection s conn).1 pid ≤ memberCount s pid := by
  unfold handleDisconnection
  cases hfc : findConn s.players conn with
  | none => exact le_refl _
  | some p =>
    simp only [hfc]
    cases hr : p.roomId with
    | none => exact le_refl _
    | some code =>
      simp only [hr]
      cases hfr : findRoom s.rooms code with
      | none => exact le_refl _
      | some room =>
        simp only [hfr]
        by_cases hlen : (removePlayer room p.id).1.players.length = 0
        · rw [if_pos hlen]
          exact countP_filter_le s.rooms _ _
        · rw [if_neg hlen]
          exact memberCount_setRoom_found s code _ room pid hfr
            (removePlayer_players_subimp room p.id pid)

theorem memberCount_tickAll (s : GameServer) (now : ℤ) (pid : String) :
    memberCount (updateAllRooms s now).1 pid = memberCount s pid := by
  unfold memberCount
  rw [updateAllRooms_rooms]
  generalize s.rooms = l
  induction l with
  | nil => rfl
  | cons cr rest ih =>
    simp only [List.map_cons, List.countP_cons]
    rw [ih]
    have heq : (((updateBullets now cr.2).1).players.any (fun q => q.id == pid)) =
        (cr.2.players.any (fun q => q.id == pid)) :=
      any_id_eq_of_map_id (updateBullets_player_ids now cr.2) pid
    rw [heq]

theorem memberCount_createRoom (s : GameServer) (conn : ℕ) (code : String)
    (pn : Option String) (pid : String) :
    memberCount (handleCreateRoom s conn code pn).1 pid ≤
      memberCount s pid + entryCount s pid [.createRoom conn code pn] := by
  unfold handleCreateRoom
  cases hfc : findConn s.players conn with
  | none => simp [entryCount, hfc]
  | some p =>
    have hE : entryCount s pid [.createRoom conn code pn] = (if p.id = pid then 1 else 0) := by
      simp [entryCount, hfc]
    rw [hE]
    by_cases hp : p.id = pid
    · rw [if_pos hp]
      exact memberCount_setRoom_le s code _ pid
    · rw [if_neg hp]
      refine le_trans (memberCount_setRoom_notmem s code _ pid ?_) (Nat.le_add_right _ 0)
      rw [addPlayer_players]
      simp [mkRoom, setPlayer, hp]

theorem memberCount_joinRoom (s : GameServer) (conn : ℕ) (code : String)
    (pn : Option String) (pid : String) :
    memberCount (handleJoinRoom s conn code pn).1 pid ≤
      memberCount s pid + entryCount s pid [.joinRoom conn code pn] := by
  unfold handleJoinRoom
  cases hfc : findConn s.players conn with
  | none => simp [entryCount, hfc]
  | some p =>
    simp only [hfc]
    have hE : entryCount s pid [.joinRoom conn code pn] = (if p.id = pid then 1 else 0) := by
      simp [entryCount, hfc]
    rw [hE]
    cases hfr : findRoom s.rooms code with
    | none => exact Nat.le_add_right _ _
    | some room =>
      simp only [hfr]
      by_cases hcap : room.players.length ≥ 8
      · rw [if_pos hcap]
        exact Nat.le_add_right _ _
      · rw [if_neg hcap]
        by_cases hp : p.id = pid
        · rw [if_pos hp]
          exact memberCount_setRoom_le s code _ pid
        · rw [if_neg hp]
          refine le_trans (memberCount_setRoom_found s code _ room pid hfr ?_)
            (Nat.le_add_right _ 0)
          intro hany
          rw [addPlayer_players] at hany
          rw [List.any_eq_true] at hany ⊢
          obtain ⟨x, hx, hpx⟩ := hany
          rcases setPlayer_mem hx with hxg | hxm
          · exfalso
            have hxid : x.id = pid := by simpa using hpx
            rw [hxg] at hxid
            exact hp hxid
          · exact ⟨x, hxm, hpx⟩

theorem serverStep_memberCount (s : GameServer) (op : ServerOp) (pid : String) :
    memberCount (serverStep s op).1 pid ≤ memberCount s pid + entryCount s pid [op] := by
  cases op with
  | connect conn => exact le_of_eq (memberCount_connect s conn pid)
  | createRoom conn code pn => exact memberCount_createRoom s conn code pn pid
  | joinRoom conn code pn => exact memberCount_joinRoom s conn code pn pid
  | playerUpdate conn pos rot h =>
    exact le_trans (memberCount_playerUpdate s conn pos rot h pid) (Nat.le_add_right _ _)
  | bulletFired conn bid pos dir w now =>
    exact le_trans (memberCount_bulletFired s conn bid pos dir w now pid) (Nat.le_add_right _ _)
  | disconnect conn =>
    exact le_trans (memberCount_disconnect s conn pid) (Nat.le_add_right _ _)
  | tickAll now =>
    exact le_trans (le_of_eq (memberCount_tickAll s now pid)) (Nat.le_add_right _ _)
  | respawnTimer code rpid due k =>
    exact le_trans (memberCount_respawnTimer s code rpid due k pid) (Nat.le_add_right _ _)

theorem entryCount_cons (s : GameServer) (pid : String) (op : ServerOp)
    (ops : List ServerOp) :
    entryCount s pid (op :: ops) =
      entryCount s pid [op] + entryCount (serverStep s op).1 pid ops := by
  simp only [entryCount]
  omega

theorem memberCount_le_entryCount (ops : List ServerOp) :
    ∀ (s : GameServer) (pid : String),
      memberCount (runServer s ops) pid ≤ memberCount s pid + entryCount s pid ops := by
  induction ops with
  | nil => intro s pid; exact Nat.le_add_right _ _
  | cons op rest ih =>
    intro s pid
    have h2 := ih (serverStep s op).1 pid
    have h3 := serverStep_memberCount s op pid
    have e2 := entryCount_cons s pid op rest
    have e1 : memberCount (runServer s (op :: rest)) pid =
        memberCount (runServer (serverStep s op).1 rest) pid := rfl
    omega

/-- C9 (amended): the code never removes a player from a previously
occupied room on `create_room`/`join_room`, so "at most one room" holds
only relative to the number of entry operations: across any trace of
server operations, the number of rooms whose player map contains a given
player id grows by at most the number of `create_room`/`join_room`
operations issued from a connection registered under that id; in
particular, from a fresh server, a player that performs at most one such
entry operation is a member of at most one room.  The unconditional
spec claim fails: an entry operation never leaves the previous room. -/
theorem C9_single_room_amended :
    (∀ (ops : List ServerOp) (s : GameServer) (pid : String),
        memberCount (runServer s ops) pid ≤ memberCount s pid + entryCount s pid ops) ∧
    (∀ (ops : List ServerOp) (pid : String), entryCount mkServer pid ops ≤ 1 →
        memberCount (runServer mkServer ops) pid ≤ 1) := by
  constructor
  · intro ops s pid
    exact memberCount_le_entryCount ops s pid
  · intro ops pid h
    have h1 := memberCount_le_entryCount ops mkServer pid
    have h2 : memberCount mkServer pid = 0 := rfl
    omega

/-- Witness for C9 (amended): a fresh connection that creates one room is
a member of exactly that room and of no other. -/
theorem C9_single_room_amended_witness :
    entryCount mkServer (mkPlayerId 1) [.connect 1, .createRoom 1 "AAAA" none] ≤ 1 ∧
    memberCount (runServer mkServer [.connect 1, .createRoom 1 "AAAA" none])
      (mkPlayerId 1) ≤ 1 :=
  ⟨by decide,
   C9_single_room_amended.2 [.connect 1, .createRoom 1 "AAAA" none] (mkPlayerId 1) (by decide)⟩

/-- Counterexample to C9 as stated: `handleJoinRoom` (like
`handleCreateRoom`) never removes the submitter from a room it already
occupies, so after creating room AAAA and then joining room BBBB the
player `player_1` is simultaneously in the player maps of two rooms. -/
theorem C9_two_rooms_counterexample :
    memberCount (runServer mkServer
      [.connect 1, .connect 2, .createRoom 1 "AAAA" none,
       .createRoom 2 "BBBB" none, .joinRoom 1 "BBBB" none]) (mkPlayerId 1) = 2 := by
  decide

/-! ### Stored bullet speed versus broadcast speed -/

/-- C1 counterexample: an accepted rifle shot is stored with speed
100, while `getWeaponSpeed "rifle" = 120` is what the `bullet_fired`
broadcast carries, so the stored speed differs from the weapon's
configured projectile speed used for client rendering. -/
theorem C1_stored_speed_counterexample :
    (handleBullet (mkRoom "C") 1000 ⟨"b1", "P", ⟨0, 0, 0⟩, ⟨0, 0, 1⟩, "rifle"⟩).1.bullets =
      [acceptedBullet 1000 ⟨"b1", "P", ⟨0, 0, 0⟩, ⟨0, 0, 1⟩, "rifle"⟩] ∧
    (acceptedBullet 1000 ⟨"b1", "P", ⟨0, 0, 0⟩, ⟨0, 0, 1⟩, "rifle"⟩).speed = 100 ∧
    getWeaponSpeed "rifle" = 120 ∧
    (acceptedBullet 1000 ⟨"b1", "P", ⟨0, 0, 0⟩, ⟨0, 0, 1⟩, "rifle"⟩).speed ≠
      getWeaponSpeed "rifle" ∧
    (handleBullet (mkRoom "C") 1000 ⟨"b1", "P", ⟨0, 0, 0⟩, ⟨0, 0, 1⟩, "rifle"⟩).2 =
      [.bcast none (.bulletFired "b1" "P" ⟨0, 0, 0⟩ (normVec ⟨0, 0, 1⟩) "rifle"
        (getWeaponSpeed "rifle") (getWeaponDamage "rifle"))] := by
  have hne : ¬ dirLen ⟨0, 0, 1⟩ ≤ 1e-6 := by
    rw [show dirLen ⟨0, 0, 1⟩ = 1 from by unfold dirLen; norm_num [Real.sqrt_one]]
    norm_num
  have hfp : findPlayer (mkRoom "C").players
      (⟨"b1", "P", ⟨0, 0, 0⟩, ⟨0, 0, 1⟩, "rifle"⟩ : BulletData).playerId = none := rfl
  have hacc := @handleBullet_accepted_absent (mkRoom "C") 1000
    ⟨"b1", "P", ⟨0, 0, 0⟩, ⟨0, 0, 1⟩, "rifle"⟩ hfp hne
  refine ⟨by rw [hacc]; rfl, rfl, ?_, ?_, by rw [hacc]⟩
  · simp [getWeaponSpeed]
  · rw [show getWeaponSpeed "rifle" = 120 from by simp [getWeaponSpeed]]
    rw [show (acceptedBullet 1000 ⟨"b1", "P", ⟨0, 0, 0⟩, ⟨0, 0, 1⟩, "rifle"⟩).speed = 100
      from rfl]
    norm_num

/-- C1 (amended): for every accepted shot submission the stored
Bullet's speed is the constant 100 regardless of weapon, while the
`bullet_fired` broadcast carries the weapon-profile speed
(`getWeaponSpeed`: pistol 80, rifle 120, shotgun 60), so the two agree
only when the default applies. -/
theorem C1_stored_speed_amended (room : GameRoom) (now : ℤ) (bd : BulletData)
    (hrate : findPlayer room.players bd.playerId = none ∨
      ∃ p, findPlayer room.players bd.playerId = some p ∧ ¬ now - p.lastShotTime < 100)
    (hnz : ¬ dirLen bd.direction ≤ 1e-6) :
    (handleBullet room now bd).1.bullets = setBullet room.bullets (acceptedBullet now bd) ∧
    (acceptedBullet now bd).speed = 100 ∧
    (handleBullet room now bd).2 =
      [.bcast none (.bulletFired bd.id bd.playerId bd.position (normVec bd.direction)
        bd.weapon (getWeaponSpeed bd.weapon) (getWeaponDamage bd.weapon))] ∧
    getWeaponSpeed "pistol" = 80 ∧ getWeaponSpeed "rifle" = 120 ∧
    getWeaponSpeed "shotgun" = 60 := by
  rcases hrate with hfp | ⟨p, hfp, hge⟩
  · rw [handleBullet_accepted_absent hfp hnz]
    refine ⟨rfl, rfl, rfl, ?_, ?_, ?_⟩ <;> simp [getWeaponSpeed]
  · rw [handleBullet_accepted_present hfp hge hnz]
    refine ⟨rfl, rfl, rfl, ?_, ?_, ?_⟩ <;> simp [getWeaponSpeed]

/-- Witness for the amended C1 at a concrete accepted shot. -/
theorem C1_stored_speed_amended_witness :
    (handleBullet (mkRoom "D") 400 ⟨"b9", "Q", ⟨1, 2, 3⟩, ⟨0, 0, 2⟩, "shotgun"⟩).1.bullets =
      setBullet (mkRoom "D").bullets
        (acceptedBullet 400 ⟨"b9", "Q", ⟨1, 2, 3⟩, ⟨0, 0, 2⟩, "shotgun"⟩) ∧
    (acceptedBullet 400 ⟨"b9", "Q", ⟨1, 2, 3⟩, ⟨0, 0, 2⟩, "shotgun"⟩).speed = 100 ∧
    (handleBullet (mkRoom "D") 400 ⟨"b9", "Q", ⟨1, 2, 3⟩, ⟨0, 0, 2⟩, "shotgun"⟩).2 =
      [.bcast none (.bulletFired "b9" "Q" ⟨1, 2, 3⟩ (normVec ⟨0, 0, 2⟩) "shotgun"
        (getWeaponSpeed "shotgun") (getWeaponDamage "shotgun"))] ∧
    getWeaponSpeed "pistol" = 80 ∧ getWeaponSpeed "rifle" = 120 ∧
    getWeaponSpeed "shotgun" = 60 :=
  C1_stored_speed_amended (mkRoom "D") 400 ⟨"b9", "Q", ⟨1, 2, 3⟩, ⟨0, 0, 2⟩, "shotgun"⟩
    (Or.inl rfl)
    (by rw [show dirLen ⟨0, 0, 2⟩ = 2 from by
          unfold dirLen
          rw [show (0 : ℝ) * 0 + 0 * 0 + 2 * 2 = 4 by norm_num]
          rw [show (4 : ℝ) = 2 ^ 2 by norm_num]
          exact Real.sqrt_sq (by norm_num)]
        norm_num)

end

end Shooter
